import Mathlib

/-!
Verification of the tiered-prompts rule engine
(`src/ai_prompt_system/src/rule_engine/` and `src/database/validation.py`).

The Python code is shallowly embedded: Python `dict` / `OrderedDict`
become association lists (`List (String × V)`), `time.time()` floats
become exact rationals passed explicitly as `now`, fallible code returns
`Except`, and the external Jinja2 renderer is a function parameter
`R : String → Ctx → Except String String` (the spec treats template
rendering as a pluggable capability `render(template, variables) ->
string | TemplateSyntaxError`).
-/

namespace TieredPrompts

/-- A template-variable context: a Python dict of string values,
modelled as an association list (insertion-ordered, unique keys in any
well-formed state). -/
abbrev Ctx := List (String × String)

/-! ## Association-list model of Python dict operations -/

/-- Python `d[k]` / `d.get(k)`: value of the first entry with key `k`. -/
def lookupA {V : Type} (l : List (String × V)) (k : String) : Option V :=
  (l.find? (fun p => p.1 == k)).map (fun p => p.2)

/-- Python `k in d`. -/
def containsA {V : Type} (l : List (String × V)) (k : String) : Bool :=
  l.any (fun p => p.1 == k)

/-- Python `del d[k]` (all entries with key `k`; a well-formed dict has
at most one). -/
def eraseA {V : Type} (l : List (String × V)) (k : String) : List (String × V) :=
  l.filter (fun p => !(p.1 == k))

/-- Python `d[k] = v`: replace in place when the key is present,
otherwise append at the end (dicts are insertion-ordered). -/
def insertA {V : Type} (l : List (String × V)) (k : String) (v : V) : List (String × V) :=
  if containsA l k then l.map (fun p => if p.1 == k then (k, v) else p)
  else l ++ [(k, v)]

/-- Python `OrderedDict.move_to_end(k)`: keep the value, move the entry
to the most-recent end. -/
def moveToEnd {V : Type} (l : List (String × V)) (k : String) : List (String × V) :=
  match lookupA l k with
  | none => l
  | some v => eraseA l k ++ [(k, v)]

/-- Python `str.startswith`, on the character sequences of the two
strings. -/
def pyStartsWith (s pre : String) : Bool :=
  pre.toList.isPrefixOf s.toList

/-! ## Decimal representation (Python `str(int)` for non-negative ids) -/

/-- One decimal digit character. -/
def digitChar (n : Nat) : Char :=
  match n with
  | 0 => '0' | 1 => '1' | 2 => '2' | 3 => '3' | 4 => '4'
  | 5 => '5' | 6 => '6' | 7 => '7' | 8 => '8' | _ => '9'

/-- Fueled digit accumulator (fuel-structural so that the kernel can
evaluate it; the fuel never runs out when it starts above `n`). -/
def decCharsAux : Nat → Nat → List Char → List Char
  | 0, _, acc => acc
  | fuel + 1, n, acc =>
    if n < 10 then digitChar n :: acc
    else decCharsAux fuel (n / 10) (digitChar (n % 10) :: acc)

/-- Decimal digit characters of a natural number, most significant first. -/
def decChars (n : Nat) : List Char :=
  decCharsAux (n + 1) n []

/-- Python `str(int)` on a non-negative rule id. -/
def decRepr (n : Nat) : String := String.mk (decChars n)

/-- Numeric value of a decimal digit string (left inverse of
[decChars], used to prove that decimal ids are unambiguous). -/
def decVal (l : List Char) : Nat :=
  l.foldl (fun a c => a * 10 + (c.toNat - 48)) 0

/-! ## Hash stand-ins

`hashlib.md5(...).hexdigest()[:8]` and Python's builtin `hash` on a
string are external-library / interpreter primitives (not code of this
repository).  Modelled from the spec: the cache key uses "a stable hash
of the variable mapping"; the only properties relied on are that the
hash is a deterministic pure function of its input string, and that an
md5 hex digest consists of lowercase hexadecimal characters. -/

/-- Deterministic stand-in for a string hash (Python `hash(s)` within
one process). -/
def pyHashStr (s : String) : Int :=
  s.toList.foldl (fun a c => a * 1000003 + Int.ofNat c.toNat) 7

/-- One lowercase hexadecimal digit character. -/
def hexDigitChar (n : Nat) : Char :=
  match n with
  | 0 => '0' | 1 => '1' | 2 => '2' | 3 => '3' | 4 => '4'
  | 5 => '5' | 6 => '6' | 7 => '7' | 8 => '8' | 9 => '9'
  | 10 => 'a' | 11 => 'b' | 12 => 'c' | 13 => 'd' | 14 => 'e' | _ => 'f'

/-- Deterministic stand-in for `hashlib.md5(s.encode()).hexdigest()[:8]`:
eight lowercase hex digits computed from the input string. -/
def md5hex8 (s : String) : String :=
  let h := s.toList.foldl (fun a c => a * 131 + c.toNat) 7
  String.mk ((List.range 8).map (fun i => hexDigitChar (h / 16 ^ i % 16)))

/-! ## Cache (`cache.py`, class `CacheManager`) -/

/-- State of `CacheManager`: bounded LRU cache with TTL expiry.
`cache` is the `OrderedDict` (front = least recently used), `timestamps`
the companion dict of insertion times. -/
structure CacheManager (V : Type) where
  max_size : Nat
  ttl : ℤ
  cache : List (String × V)
  timestamps : List (String × ℤ)
  hit_count : Nat
  miss_count : Nat

namespace CacheManager

variable {V : Type}

/-- `CacheManager.__init__`. -/
def init (V : Type) (max_size : Nat) (ttl : ℤ) : CacheManager V :=
  ⟨max_size, ttl, [], [], 0, 0⟩

/-- `CacheManager._is_expired`. -/
def isExpired (s : CacheManager V) (k : String) (now : ℤ) : Bool :=
  match lookupA s.timestamps k with
  | none => true
  | some ts => decide (now - ts > s.ttl)

/-- `CacheManager._remove`. -/
def remove (s : CacheManager V) (k : String) : CacheManager V :=
  { s with cache := eraseA s.cache k, timestamps := eraseA s.timestamps k }

/-- `CacheManager.get`: returns the cached value (or `none` on
miss/expiry) together with the updated state. -/
def get (s : CacheManager V) (k : String) (now : ℤ) : Option V × CacheManager V :=
  if !(containsA s.cache k) then
    (none, { s with miss_count := s.miss_count + 1 })
  else if isExpired s k now then
    let s1 := remove s k
    (none, { s1 with miss_count := s1.miss_count + 1 })
  else
    (lookupA s.cache k,
     { s with cache := moveToEnd s.cache k, hit_count := s.hit_count + 1 })

/-- `CacheManager._evict_lru`: drop the oldest (front) entry. -/
def evictLRU (s : CacheManager V) : CacheManager V :=
  match s.cache with
  | [] => s
  | (k, _) :: _ => remove s k

/-- `CacheManager.set`. -/
def set (s : CacheManager V) (k : String) (v : V) (now : ℤ) : CacheManager V :=
  if containsA s.cache k then
    { s with cache := moveToEnd (insertA s.cache k v) k,
             timestamps := insertA s.timestamps k now }
  else
    let s1 := { s with cache := s.cache ++ [(k, v)],
                       timestamps := insertA s.timestamps k now }
    if s1.cache.length > s1.max_size then evictLRU s1 else s1

/-- `CacheManager.delete`. -/
def delete (s : CacheManager V) (k : String) : Bool × CacheManager V :=
  if containsA s.cache k then (true, remove s k) else (false, s)

/-- `CacheManager.clear`. -/
def clear (s : CacheManager V) : CacheManager V :=
  { s with cache := [], timestamps := [], hit_count := 0, miss_count := 0 }

/-- `CacheManager.cleanup_expired`: returns the number of removed
entries and the updated state. -/
def cleanupExpired (s : CacheManager V) (now : ℤ) : Nat × CacheManager V :=
  let expired := (s.cache.map (fun p => p.1)).filter (fun k => isExpired s k now)
  (expired.length, expired.foldl (fun acc k => remove acc k) s)

end CacheManager

/-- The three rule kinds (`rule_type` strings `'task'`, `'semantic'`,
`'primitive'` of the source). -/
inductive RuleType where
  | task
  | semantic
  | primitive
deriving DecidableEq

/-- The Python string for a rule kind. -/
def RuleType.str : RuleType → String
  | .task => "task"
  | .semantic => "semantic"
  | .primitive => "primitive"

/-- Key comparison used by `json.dumps(context, sort_keys=True)`:
entries are serialized in ascending key order. -/
def keyLE (a b : String × String) : Prop :=
  a.1 ≤ b.1

instance : DecidableRel keyLE := fun a b =>
  inferInstanceAs (Decidable (a.1 ≤ b.1))

instance : IsTotal (String × String) keyLE :=
  ⟨fun a b => le_total a.1 b.1⟩

instance : IsTrans (String × String) keyLE :=
  ⟨fun _ _ _ h1 h2 => le_trans h1 h2⟩

/-- `json.dumps(context, sort_keys=True)` entry order. -/
def sortByKey (ctx : Ctx) : Ctx :=
  List.insertionSort keyLE ctx

/-- `json.dumps(context, sort_keys=True)` (string values; exact escape
rules of the JSON writer are irrelevant to the claims). -/
def jsonDumpsSorted (ctx : Ctx) : String :=
  "\x7b" ++
    String.intercalate ", "
      ((sortByKey ctx).map (fun p => "\"" ++ p.1 ++ "\": \"" ++ p.2 ++ "\"")) ++
  "\x7d"

/-- `CacheManager.get_cache_key`. -/
def get_cache_key (rule_type : RuleType) (rule_id : Nat) (context : Ctx) : String :=
  let context_str := jsonDumpsSorted context
  let context_hash := md5hex8 context_str
  rule_type.str ++ "_" ++ decRepr rule_id ++ "_" ++ context_hash

/-- The invalidation key pattern `f"{rule_type}_{rule_id}_"` of
`CacheManager.invalidate_rule_cache`. -/
def rulePre (rule_type : RuleType) (rule_id : Nat) : String :=
  rule_type.str ++ "_" ++ decRepr rule_id ++ "_"

namespace CacheManager

/-- `CacheManager.invalidate_rule_cache`: returns the number of removed
entries and the updated state. -/
def invalidateRuleCache {V : Type} (s : CacheManager V) (rule_type : RuleType)
    (rule_id : Nat) : Nat × CacheManager V :=
  let invalidated :=
    (s.cache.map (fun p => p.1)).filter (fun k => pyStartsWith k (rulePre rule_type rule_id))
  (invalidated.length, invalidated.foldl (fun acc k => remove acc k) s)

/-- `CacheManager.warm_cache`. -/
def warmCache {V : Type} (s : CacheManager V)
    (rule_resolutions : List (RuleType × Nat × Ctx × V)) (now : ℤ) : CacheManager V :=
  rule_resolutions.foldl
    (fun acc r => set acc (get_cache_key r.1 r.2.1 r.2.2.1) r.2.2.2 now) s

end CacheManager

/-! ## Store rows and relations (database tables, as seen by the
resolver; metadata columns not read by the rule engine are omitted) -/

/-- A `primitive_rules` row. -/
structure PrimitiveRule where
  id : Nat
  name : String
  content : String
  category : String
deriving DecidableEq

/-- A `semantic_rules` row. -/
structure SemanticRule where
  id : Nat
  name : String
  content_template : String
  category : String
deriving DecidableEq

/-- A `task_rules` row. -/
structure TaskRule where
  id : Nat
  name : String
  prompt_template : String
  domain : String
deriving DecidableEq

/-- A `task_semantic_relations` row. -/
structure TaskSemanticRelation where
  task_rule_id : Nat
  semantic_rule_id : Nat
  weight : ℚ
  order_index : Nat
  is_required : Bool
deriving DecidableEq

/-- A `semantic_primitive_relations` row. -/
structure SemanticPrimitiveRelation where
  semantic_rule_id : Nat
  primitive_rule_id : Nat
  weight : ℚ
  order_index : Nat
  is_required : Bool
deriving DecidableEq

/-- The Store (external collaborator): the relational tables the rule
engine queries. -/
structure Store where
  task_rules : List TaskRule
  semantic_rules : List SemanticRule
  primitive_rules : List PrimitiveRule
  task_semantic_relations : List TaskSemanticRelation
  semantic_primitive_relations : List SemanticPrimitiveRelation

/-- A row of `_get_semantic_rules_for_task`: `SELECT sr.*, tsr.weight,
tsr.order_index, tsr.is_required ... JOIN ... ORDER BY tsr.order_index,
sr.name`. -/
structure SemRow where
  id : Nat
  name : String
  content_template : String
  category : String
  weight : ℚ
  order_index : Nat
  is_required : Bool
deriving DecidableEq

/-- A row of `_get_primitive_rules_for_semantic`: `SELECT pr.*,
spr.weight, spr.order_index, spr.is_required ... ORDER BY
spr.order_index, pr.name`. -/
structure PrimRow where
  id : Nat
  name : String
  content : String
  category : String
  weight : ℚ
  order_index : Nat
  is_required : Bool
deriving DecidableEq

/-- `RuleEngine._get_task_rule_by_name`
(`SELECT * FROM task_rules WHERE name = ?`, first row). -/
def getTaskRuleByName (st : Store) (name : String) : Option TaskRule :=
  st.task_rules.find? (fun r => r.name == name)

/-- `RuleResolver._get_task_rule`
(`SELECT * FROM task_rules WHERE id = ?`, first row). -/
def getTaskRule (st : Store) (task_id : Nat) : Option TaskRule :=
  st.task_rules.find? (fun r => r.id == task_id)

/-- `RuleResolver._get_semantic_rule`. -/
def getSemanticRule (st : Store) (semantic_id : Nat) : Option SemanticRule :=
  st.semantic_rules.find? (fun r => r.id == semantic_id)

/-- `RuleResolver._get_primitive_rule`. -/
def getPrimitiveRule (st : Store) (primitive_id : Nat) : Option PrimitiveRule :=
  st.primitive_rules.find? (fun r => r.id == primitive_id)

/-- The `ORDER BY order_index, name` comparison on joined semantic rows. -/
def semRowLE (a b : SemRow) : Prop :=
  a.order_index < b.order_index ∨ (a.order_index = b.order_index ∧ a.name ≤ b.name)

instance : DecidableRel semRowLE := fun a b =>
  inferInstanceAs (Decidable (a.order_index < b.order_index ∨
    (a.order_index = b.order_index ∧ a.name ≤ b.name)))

instance : IsTotal SemRow semRowLE := by
  constructor
  intro a b
  rcases Nat.lt_trichotomy a.order_index b.order_index with h | h | h
  · exact Or.inl (Or.inl h)
  · rcases le_total a.name b.name with hn | hn
    · exact Or.inl (Or.inr ⟨h, hn⟩)
    · exact Or.inr (Or.inr ⟨h.symm, hn⟩)
  · exact Or.inr (Or.inl h)

instance : IsTrans SemRow semRowLE := by
  constructor
  intro a b c hab hbc
  rcases hab with h1 | ⟨h1, hn1⟩
  · rcases hbc with h2 | ⟨h2, _⟩
    · exact Or.inl (h1.trans h2)
    · exact Or.inl (h2 ▸ h1)
  · rcases hbc with h2 | ⟨h2, hn2⟩
    · exact Or.inl (h1 ▸ h2)
    · exact Or.inr ⟨h1.trans h2, hn1.trans hn2⟩

/-- The `ORDER BY order_index, name` comparison on joined primitive rows. -/
def primRowLE (a b : PrimRow) : Prop :=
  a.order_index < b.order_index ∨ (a.order_index = b.order_index ∧ a.name ≤ b.name)

instance : DecidableRel primRowLE := fun a b =>
  inferInstanceAs (Decidable (a.order_index < b.order_index ∨
    (a.order_index = b.order_index ∧ a.name ≤ b.name)))

instance : IsTotal PrimRow primRowLE := by
  constructor
  intro a b
  rcases Nat.lt_trichotomy a.order_index b.order_index with h | h | h
  · exact Or.inl (Or.inl h)
  · rcases le_total a.name b.name with hn | hn
    · exact Or.inl (Or.inr ⟨h, hn⟩)
    · exact Or.inr (Or.inr ⟨h.symm, hn⟩)
  · exact Or.inr (Or.inl h)

instance : IsTrans PrimRow primRowLE := by
  constructor
  intro a b c hab hbc
  rcases hab with h1 | ⟨h1, hn1⟩
  · rcases hbc with h2 | ⟨h2, _⟩
    · exact Or.inl (h1.trans h2)
    · exact Or.inl (h2 ▸ h1)
  · rcases hbc with h2 | ⟨h2, hn2⟩
    · exact Or.inl (h1 ▸ h2)
    · exact Or.inr ⟨h1.trans h2, hn1.trans hn2⟩

/-- The unordered join of `task_semantic_relations` (for one task) with
`semantic_rules`. -/
def joinedSemRows (st : Store) (task_id : Nat) : List SemRow :=
  (st.task_semantic_relations.filter (fun r => r.task_rule_id == task_id)).filterMap
    (fun r => (getSemanticRule st r.semantic_rule_id).map
      (fun sr => ⟨sr.id, sr.name, sr.content_template, sr.category,
                  r.weight, r.order_index, r.is_required⟩))

/-- `RuleResolver._get_semantic_rules_for_task`: the join, ordered by
`(order_index, name)`. -/
def getSemanticRulesForTask (st : Store) (task_id : Nat) : List SemRow :=
  List.insertionSort semRowLE (joinedSemRows st task_id)

/-- The unordered join of `semantic_primitive_relations` (for one
semantic rule) with `primitive_rules`. -/
def joinedPrimRows (st : Store) (semantic_id : Nat) : List PrimRow :=
  (st.semantic_primitive_relations.filter (fun r => r.semantic_rule_id == semantic_id)).filterMap
    (fun r => (getPrimitiveRule st r.primitive_rule_id).map
      (fun pr => ⟨pr.id, pr.name, pr.content, pr.category,
                  r.weight, r.order_index, r.is_required⟩))

/-- `RuleResolver._get_primitive_rules_for_semantic`: the join, ordered
by `(order_index, name)`. -/
def getPrimitiveRulesForSemantic (st : Store) (semantic_id : Nat) : List PrimRow :=
  List.insertionSort primRowLE (joinedPrimRows st semantic_id)

/-! ## Resolver (`resolver.py`) -/

/-- The dict built by `RuleResolver.resolve_semantic_rule`
(`semantic_rule` is `Option` because downstream code reads it with
`dict.get`). -/
structure ResolvedSemantic where
  semantic_rule : Option SemanticRule
  primitive_rules : List PrimRow
  context : Ctx
  resolved_at : ℤ
deriving DecidableEq

/-- The dict built by `RuleResolver.resolve_task_rule`. -/
structure ResolvedHierarchy where
  task_rule : Option TaskRule
  semantic_rules : List ResolvedSemantic
  context : Ctx
  resolved_at : ℤ
deriving DecidableEq

/-- A cached resolution value: either a task hierarchy or a resolved
semantic dict (the shared `CacheManager` stores both). -/
inductive RVal where
  | task (h : ResolvedHierarchy)
  | sem (s : ResolvedSemantic)
deriving DecidableEq

/-- The resolver fingerprint `hash(str(sorted(context.items())))`:
`sorted` orders the (key, value) pairs, `str` serializes them, `hash` is
the interpreter string hash (stand-in [pyHashStr]). -/
def ctxFingerprint (ctx : Ctx) : String :=
  let items := List.insertionSort
    (fun a b : String × String => a.1 < b.1 ∨ (a.1 = b.1 ∧ a.2 ≤ b.2)) ctx
  let s := "[" ++
    String.intercalate ", "
      (items.map (fun p => "(" ++ p.1 ++ ", " ++ p.2 ++ ")")) ++ "]"
  toString (pyHashStr s)

/-- Cache key of `resolve_task_rule`:
`f"task_{task_rule_id}_{hash(str(sorted(context.items())))}"`. -/
def taskCacheKey (task_rule_id : Nat) (ctx : Ctx) : String :=
  "task_" ++ decRepr task_rule_id ++ "_" ++ ctxFingerprint ctx

/-- Cache key of `resolve_semantic_rule`. -/
def semanticCacheKey (semantic_rule_id : Nat) (ctx : Ctx) : String :=
  "semantic_" ++ decRepr semantic_rule_id ++ "_" ++ ctxFingerprint ctx

/-- A cached value read back at a semantic-rule key, as the duck-typed
Python code sees it: a resolved-semantic dict is returned as is; a task
dict has no `semantic_rule` / `primitive_rules` keys, so `dict.get`
yields `None` / `[]`. -/
def RVal.asSemantic : RVal → ResolvedSemantic
  | .sem s => s
  | .task h => ⟨none, [], h.context, h.resolved_at⟩

/-- A cached value read back at a task key, duck-typed symmetrically. -/
def RVal.asTask : RVal → ResolvedHierarchy
  | .task h => h
  | .sem s => ⟨none, [], s.context, s.resolved_at⟩

/-- `RuleResolver.resolve_semantic_rule`.  Returns the result (or the
raised error), the updated cache, and the number of Store queries
issued. -/
def resolveSemanticRule (st : Store) (s : CacheManager RVal) (now : ℤ)
    (semantic_rule_id : Nat) (ctx : Ctx) :
    Except String ResolvedSemantic × CacheManager RVal × Nat :=
  let key := semanticCacheKey semantic_rule_id ctx
  match CacheManager.get s key now with
  | (some v, s1) => (.ok v.asSemantic, s1, 0)
  | (none, s1) =>
    match getSemanticRule st semantic_rule_id with
    | none => (.error ("Semantic rule " ++ decRepr semantic_rule_id ++ " not found"), s1, 1)
    | some sr =>
      let prims := getPrimitiveRulesForSemantic st semantic_rule_id
      let result : ResolvedSemantic := ⟨some sr, prims, ctx, now⟩
      let s2 := CacheManager.set s1 key (.sem result) now
      (.ok result, s2, 2)

/-- The `for semantic_rule in semantic_rules` loop of
`resolve_task_rule`: resolve each semantic row in order, short-circuit
on a raised error, accumulate cache state and Store-query count. -/
def resolveSemList (st : Store) (s : CacheManager RVal) (now : ℤ)
    (rows : List SemRow) (ctx : Ctx) :
    Except String (List ResolvedSemantic) × CacheManager RVal × Nat :=
  match rows with
  | [] => (.ok [], s, 0)
  | r :: rest =>
    match resolveSemanticRule st s now r.id ctx with
    | (.error e, s1, q1) => (.error e, s1, q1)
    | (.ok rs, s1, q1) =>
      match resolveSemList st s1 now rest ctx with
      | (.error e, s2, q2) => (.error e, s2, q1 + q2)
      | (.ok restRes, s2, q2) => (.ok (rs :: restRes), s2, q1 + q2)

/-- `RuleResolver.resolve_task_rule`. -/
def resolveTaskRule (st : Store) (s : CacheManager RVal) (now : ℤ)
    (task_rule_id : Nat) (ctx : Ctx) :
    Except String ResolvedHierarchy × CacheManager RVal × Nat :=
  let key := taskCacheKey task_rule_id ctx
  match CacheManager.get s key now with
  | (some v, s1) => (.ok v.asTask, s1, 0)
  | (none, s1) =>
    match getTaskRule st task_rule_id with
    | none => (.error ("Task rule " ++ decRepr task_rule_id ++ " not found"), s1, 1)
    | some tr =>
      let semRows := getSemanticRulesForTask st task_rule_id
      match resolveSemList st s1 now semRows ctx with
      | (.error e, s2, q) => (.error e, s2, 2 + q)
      | (.ok sems, s2, q) =>
        let result : ResolvedHierarchy := ⟨some tr, sems, ctx, now⟩
        let s3 := CacheManager.set s2 key (.task result) now
        (.ok result, s3, 2 + q)

/-! ## Template composition (`template.py`)

The Jinja2 renderer is the parameter `R`; `TemplateEngine.render_template`
wraps its syntax error into a `ValueError` message. -/

/-- The renderer capability: `render(template_string, variables)`. -/
abbrev Renderer := String → Ctx → Except String String

/-- `TemplateEngine.render_template`. -/
def renderTemplate (R : Renderer) (template_str : String) (context : Ctx) :
    Except String String :=
  match R template_str context with
  | .ok s => .ok s
  | .error e => .error ("Invalid template syntax: " ++ e)

/-- `TemplateEngine._render_primitive_rule`: falls back to the raw
content when rendering fails. -/
def renderPrimitiveRule (R : Renderer) (p : PrimRow) (context : Ctx) : String :=
  if p.content == "" then ""
  else
    match renderTemplate R p.content context with
    | .ok s => s
    | .error _ => p.content

/-- The `primitive_rules_content` list built inside
`_render_semantic_rule_with_primitives`: primitives with falsy content
are skipped, falsy renders are skipped, kept renders are bulleted. -/
def semanticPrimsContent (R : Renderer) (prims : List PrimRow) (context : Ctx) :
    List String :=
  (((prims.filter (fun p => !(p.content == ""))).map
      (fun p => renderPrimitiveRule R p context)).filter
    (fun s => !(s == ""))).map (fun s => "- " ++ s)

/-- The per-semantic context `{**context, 'primitive_rules': joined}`. -/
def semanticContext (R : Renderer) (sd : ResolvedSemantic) (context : Ctx) : Ctx :=
  insertA context "primitive_rules"
    (String.intercalate "\n" (semanticPrimsContent R sd.primitive_rules context))

/-- `TemplateEngine._render_semantic_rule_with_primitives`: a render
failure degrades to an inline diagnostic comment. -/
def renderSemanticRuleWithPrimitives (R : Renderer) (sd : ResolvedSemantic)
    (context : Ctx) : String :=
  match sd.semantic_rule with
  | none => ""
  | some sr =>
    match renderTemplate R sr.content_template (semanticContext R sd context) with
    | .ok s => s
    | .error e =>
      "<!-- Error rendering semantic rule " ++ sr.name ++ ": " ++ e ++ " -->"

/-- The `all_primitive_rules_content` accumulator of
`render_rule_hierarchy`: all primitive renders across semantics, in
order, skipping falsy content and falsy renders, deduplicated by exact
rendered text (first occurrence wins). -/
def allPrimitiveRulesContent (R : Renderer) (sems : List ResolvedSemantic)
    (context : Ctx) : List String :=
  sems.foldl
    (fun acc sd =>
      sd.primitive_rules.foldl
        (fun acc2 p =>
          if p.content == "" then acc2
          else
            let r := renderPrimitiveRule R p context
            if r == "" then acc2
            else if acc2.contains r then acc2 else acc2 ++ [r])
        acc)
    []

/-- Python dict merge `{**a, **b}`. -/
def mergeCtx (a b : Ctx) : Ctx :=
  b.foldl (fun acc p => insertA acc p.1 p.2) a

/-- The `semantic_rules_content` list of `render_rule_hierarchy`. -/
def semanticContents (R : Renderer) (h : ResolvedHierarchy) (context : Ctx) :
    List String :=
  h.semantic_rules.map
    (fun sd => renderSemanticRuleWithPrimitives R sd (mergeCtx h.context context))

/-- The final context passed to the task template: the merged context
plus the `semantic_rules` and `primitive_rules` bindings. -/
def taskRenderContext (R : Renderer) (h : ResolvedHierarchy) (context : Ctx) : Ctx :=
  let merged := mergeCtx h.context context
  insertA
    (insertA merged "semantic_rules"
      (String.intercalate "\n\n---\n\n" (semanticContents R h context)))
    "primitive_rules"
    (String.intercalate "\n\n" (allPrimitiveRulesContent R h.semantic_rules merged))

/-- `TemplateEngine.render_rule_hierarchy`: a task-level failure is
fatal and propagates. -/
def renderRuleHierarchy (R : Renderer) (h : ResolvedHierarchy) (context : Ctx) :
    Except String String :=
  match h.task_rule with
  | none => .error "No task rule found in hierarchy"
  | some tr => renderTemplate R tr.prompt_template (taskRenderContext R h context)

/-- Python `str.lower`, on the character sequence (ASCII templates). -/
def pyLower (s : String) : String :=
  String.mk (s.toList.map Char.toLower)

/-- `TemplateEngine.render_with_model_format`. -/
def renderWithModelFormat (content : String) (model_type : String) : String :=
  let mt := pyLower model_type
  if mt == "claude" then
    "<thinking>\nProcessing the following prompt requirements:\n</thinking>\n\n" ++ content
  else if mt == "gpt" then
    "System: You are a helpful assistant following these guidelines:\n\n" ++ content
  else if mt == "gemini" then
    "Instructions: Please follow these guidelines carefully:\n\n" ++ content
  else content

/-! ## Engine (`engine.py`) -/

/-- The parts of the `generate_prompt` result dict the claims are about. -/
structure GenResult where
  prompt : String
  raw_prompt : String
  task_rule : TaskRule
  target_model : String
  context : Ctx
  hierarchy : ResolvedHierarchy
deriving DecidableEq

/-- `RuleEngine.generate_prompt`.  Returns the result (or the raised
error), the updated cache, and the number of Store queries issued by
this call. -/
def generatePrompt (R : Renderer) (st : Store) (s : CacheManager RVal) (now : ℤ)
    (task_rule_name : String) (ctx : Ctx) (target_model : String) :
    Except String GenResult × CacheManager RVal × Nat :=
  match getTaskRuleByName st task_rule_name with
  | none => (.error ("Task rule " ++ task_rule_name ++ " not found"), s, 1)
  | some tr =>
    match resolveTaskRule st s now tr.id ctx with
    | (.error e, s1, q) => (.error e, s1, 1 + q)
    | (.ok h, s1, q) =>
      match renderRuleHierarchy R h ctx with
      | .error e => (.error e, s1, 1 + q)
      | .ok raw =>
        (.ok ⟨renderWithModelFormat raw target_model, raw, tr, target_model, ctx, h⟩,
         s1, 1 + q)

/-! ## Version-sequencing validation (`database/validation.py`,
`DatabaseValidator._validate_version_consistency`) -/

/-- A `rule_versions` row. -/
structure VersionRow where
  rule_type : RuleType
  rule_id : Nat
  version_number : Nat
deriving DecidableEq

/-- The window-function partition for one `(rule_type, rule_id)`:
its version numbers in ascending order (`PARTITION BY rule_type,
rule_id ORDER BY version_number`). -/
def partitionVersions (rows : List VersionRow) (rt : RuleType) (rid : Nat) :
    List Nat :=
  List.insertionSort (fun a b => a ≤ b)
    ((rows.filter (fun r => r.rule_type == rt && r.rule_id == rid)).map
      (fun r => r.version_number))

/-- The `LAG`-based gap scan: for each row whose predecessor exists,
report `(expected, found) = (prev + 1, version)` when
`version != prev + 1`. -/
def lagIssues : List Nat → List (Nat × Nat)
  | [] => []
  | [_] => []
  | a :: b :: rest =>
    (if b ≠ a + 1 then [(a + 1, b)] else []) ++ lagIssues (b :: rest)

/-- The issues `_validate_version_consistency` reports for one
`(rule_type, rule_id)` partition, as `(expected, found)` pairs. -/
def versionIssues (rows : List VersionRow) (rt : RuleType) (rid : Nat) :
    List (Nat × Nat) :=
  lagIssues (partitionVersions rows rt rid)

/-- The formatted issue message of `_validate_version_consistency`. -/
def versionGapMessage (rt : RuleType) (rid : Nat) (expected found : Nat) : String :=
  "Version gap for " ++ rt.str ++ " rule " ++ decRepr rid ++
    ": expected " ++ decRepr expected ++ ", found " ++ decRepr found

/-- Modelled from the spec: "for each (kind, id), version numbers must
form a contiguous ascending sequence starting at 1" — the sorted
versions are exactly `1, 2, ..., n`. -/
def contiguousFromOne (vs : List Nat) : Bool :=
  List.insertionSort (fun a b => a ≤ b) vs == List.range' 1 vs.length

/-! ## Public cache operations as one step type (claim C10) -/

/-- One public `CacheManager` operation. -/
inductive CacheOp (V : Type) where
  | get (k : String) (now : ℤ)
  | set (k : String) (v : V) (now : ℤ)
  | delete (k : String)
  | clear
  | cleanupExpired (now : ℤ)
  | invalidateRuleCache (rt : RuleType) (rid : Nat)
  | warmCache (l : List (RuleType × Nat × Ctx × V)) (now : ℤ)

/-- The state after running one public cache operation. -/
def applyCacheOp {V : Type} (s : CacheManager V) : CacheOp V → CacheManager V
  | .get k now => (CacheManager.get s k now).2
  | .set k v now => CacheManager.set s k v now
  | .delete k => (CacheManager.delete s k).2
  | .clear => CacheManager.clear s
  | .cleanupExpired now => (CacheManager.cleanupExpired s now).2
  | .invalidateRuleCache rt rid => (CacheManager.invalidateRuleCache s rt rid).2
  | .warmCache l now => CacheManager.warmCache s l now

/-- The key-set coherence invariant of claim C10: the entry dict and the
timestamp dict hold exactly the same keys. -/
def sameKeys {V : Type} (s : CacheManager V) : Prop :=
  ∀ k, containsA s.cache k = containsA s.timestamps k

/-- The full C10 invariant: a well-formed dict (no duplicate keys),
coherent key sets, and the size bound. -/
def cacheInv {V : Type} (s : CacheManager V) : Prop :=
  (s.cache.map (fun p => p.1)).Nodup ∧ sameKeys s ∧ s.cache.length ≤ s.max_size

/-! ## Spec-side comparison definitions -/

/-- Deduplication by exact text, first occurrence kept (the spec's
"deduplicated by exact rendered text, first occurrence wins"). -/
def dedupFirst (l : List String) : List String :=
  l.foldl (fun acc x => if acc.contains x then acc else acc ++ [x]) []

/-- Modelled from the spec words of claim C6: the `primitive_rules`
task-level binding is "the join of all flattened primitive renders from
all semantic children, in sibling order, deduplicated by exact rendered
text with the first occurrence kept". -/
def claimedPrimitiveRulesContent (R : Renderer) (sems : List ResolvedSemantic)
    (context : Ctx) : List String :=
  dedupFirst
    (((sems.map (fun sd => sd.primitive_rules)).flatten).map
      (fun p => renderPrimitiveRule R p context))

/-! ## Concrete fixtures used to instantiate the theorems -/

/-- A renderer that renders every template to itself (variables unused). -/
def exR : Renderer := fun t _ => .ok t

/-- A one-task / one-semantic / one-primitive Store. -/
def exStore : Store :=
  ⟨[⟨1, "T1", "TASK", "dom"⟩],
   [⟨2, "S1", "SEM", "cat"⟩],
   [⟨3, "P1", "Be concise.", "instruction"⟩],
   [⟨1, 2, 1, 0, true⟩],
   [⟨2, 3, 1, 0, true⟩]⟩

/-- A renderer that fails (template syntax error) exactly on the
template string "BAD". -/
def exC2R : Renderer := fun t _ => if t == "BAD" then .error "boom" else .ok t

/-- A resolved semantic rule whose template fails to render. -/
def exC2sd : ResolvedSemantic := ⟨some ⟨7, "sem_bad", "BAD", "cat"⟩, [], [], 0⟩

/-- A sibling resolved semantic rule that renders fine. -/
def exC2sd2 : ResolvedSemantic := ⟨some ⟨8, "sem_ok", "OK", "cat"⟩, [], [], 0⟩

/-- A hierarchy with a failing semantic and a healthy sibling. -/
def exC2h : ResolvedHierarchy := ⟨some ⟨1, "T", "TPL", "dom"⟩, [exC2sd, exC2sd2], [], 0⟩

/-- A primitive row whose content fails to render under [exC2R]. -/
def exC2p : PrimRow := ⟨9, "p_bad", "BAD", "instruction", 1, 0, true⟩

/-- Capacity-2, TTL-10 cache after `set "a" @ t=0` and `set "b" @ t=12`:
at t=13 the entry "a" is expired and "b" is not. -/
def exC3s2 : CacheManager Nat :=
  CacheManager.set (CacheManager.set (CacheManager.init Nat 2 10) "a" 1 0) "b" 2 12

/-- A store whose task 1 has three semantic children with interleaved
`order_index` values (2, 0, 2; the tie broken by name), and whose
semantic 10 has two primitive children with interleaved indices. -/
def exC5Store : Store :=
  ⟨[⟨1, "T1", "TPL", "dom"⟩],
   [⟨10, "alpha", "A", "c"⟩, ⟨11, "beta", "B", "c"⟩, ⟨12, "gamma", "C", "c"⟩],
   [⟨20, "p1", "x", "c"⟩, ⟨21, "p2", "y", "c"⟩],
   [⟨1, 11, 1, 2, true⟩, ⟨1, 10, 1, 0, true⟩, ⟨1, 12, 1, 2, true⟩],
   [⟨10, 21, 1, 1, true⟩, ⟨10, 20, 1, 0, true⟩]⟩

/-- A renderer that renders the template "E" to the empty string and
every other template to itself. -/
def exC6R : Renderer := fun t _ => if t == "E" then .ok "" else .ok t

/-- A resolved semantic rule with one empty-rendering primitive and one
normal primitive. -/
def exC6sd : ResolvedSemantic :=
  ⟨some ⟨1, "s1", "S", "c"⟩,
   [⟨1, "p1", "E", "c", 1, 0, true⟩, ⟨2, "p2", "a", "c", 1, 1, true⟩], [], 0⟩

/-- The hierarchy around [exC6sd]. -/
def exC6h : ResolvedHierarchy := ⟨some ⟨1, "T1", "TASK", "d"⟩, [exC6sd], [], 0⟩

/-- A cache holding one resolution for task 1 and one for semantic 1. -/
def exC8 : CacheManager Nat :=
  ⟨10, 100,
   [(get_cache_key RuleType.task 1 [], 1), (get_cache_key RuleType.semantic 1 [], 2)],
   [(get_cache_key RuleType.task 1 [], 0), (get_cache_key RuleType.semantic 1 [], 0)],
   0, 0⟩

/-- A full capacity-2 cache with two live entries (for the LRU witness). -/
def exC3w : CacheManager Nat :=
  ⟨2, 100, [("x", 1), ("y", 2)], [("x", 0), ("y", 0)], 0, 0⟩

/-- Version history of (task, 1): versions 2 and 3 — contiguous but not
starting at 1. -/
def exC9rows : List VersionRow := [⟨RuleType.task, 1, 2⟩, ⟨RuleType.task, 1, 3⟩]

/-- Version history of (semantic, 4): versions 1 and 3 — a genuine gap. -/
def exC9rows2 : List VersionRow := [⟨RuleType.semantic, 4, 1⟩, ⟨RuleType.semantic, 4, 3⟩]

/-! ## Lemmas: association-list dictionary facts -/

section AssocLemmas

variable {V : Type}

lemma containsA_nil (k : String) : containsA ([] : List (String × V)) k = false := rfl

lemma containsA_cons (p : String × V) (l : List (String × V)) (k : String) :
    containsA (p :: l) k = ((p.1 == k) || containsA l k) := rfl

lemma containsA_append (l1 l2 : List (String × V)) (k : String) :
    containsA (l1 ++ l2) k = (containsA l1 k || containsA l2 k) := by
  simp [containsA]

lemma containsA_iff (l : List (String × V)) (k : String) :
    containsA l k = true ↔ ∃ p ∈ l, p.1 = k := by
  simp [containsA]

lemma containsA_eq_false_iff (l : List (String × V)) (k : String) :
    containsA l k = false ↔ ∀ p ∈ l, p.1 ≠ k := by
  simp [containsA]

lemma lookupA_nil (k : String) : lookupA ([] : List (String × V)) k = none := rfl

lemma lookupA_cons_self {p : String × V} {l : List (String × V)} {k : String}
    (h : p.1 = k) : lookupA (p :: l) k = some p.2 := by
  simp [lookupA, List.find?_cons, h]

lemma lookupA_cons_ne {p : String × V} {l : List (String × V)} {k : String}
    (h : p.1 ≠ k) : lookupA (p :: l) k = lookupA l k := by
  have h' : (p.1 == k) = false := by simpa using h
  simp [lookupA, List.find?_cons, h']

lemma eraseA_nil (k : String) : eraseA ([] : List (String × V)) k = [] := rfl

lemma eraseA_cons_self {p : String × V} {l : List (String × V)} {k : String}
    (h : p.1 = k) : eraseA (p :: l) k = eraseA l k := by
  have h' : (p.1 == k) = true := by simpa using h
  simp [eraseA, List.filter_cons, h']

lemma eraseA_cons_ne {p : String × V} {l : List (String × V)} {k : String}
    (h : p.1 ≠ k) : eraseA (p :: l) k = p :: eraseA l k := by
  have h' : (p.1 == k) = false := by simpa using h
  simp [eraseA, List.filter_cons, h']

lemma eraseA_sublist (l : List (String × V)) (k : String) :
    List.Sublist (eraseA l k) l :=
  List.filter_sublist l

lemma lookupA_eq_none_of_not_contains {l : List (String × V)} {k : String}
    (h : containsA l k = false) : lookupA l k = none := by
  simp only [containsA, List.any_eq_false] at h
  simp only [lookupA, Option.map_eq_none', List.find?_eq_none]
  exact h

lemma lookupA_isSome_of_contains {l : List (String × V)} {k : String}
    (h : containsA l k = true) : ∃ v, lookupA l k = some v := by
  induction l with
  | nil => simp [containsA_nil] at h
  | cons p t ih =>
    by_cases hp : p.1 = k
    · exact ⟨p.2, lookupA_cons_self hp⟩
    · rw [containsA_cons] at h
      have hp' : (p.1 == k) = false := by simpa using hp
      rw [hp', Bool.false_or] at h
      obtain ⟨v, hv⟩ := ih h
      exact ⟨v, by rwa [lookupA_cons_ne hp]⟩

lemma containsA_of_lookupA {l : List (String × V)} {k : String} {v : V}
    (h : lookupA l k = some v) : containsA l k = true := by
  by_contra hc
  have := lookupA_eq_none_of_not_contains (by simpa using hc)
  rw [this] at h
  exact Option.noConfusion h

lemma lookupA_append (l1 l2 : List (String × V)) (k : String) :
    lookupA (l1 ++ l2) k =
      (if containsA l1 k then lookupA l1 k else lookupA l2 k) := by
  induction l1 with
  | nil => simp [containsA_nil, lookupA_nil]
  | cons p t ih =>
    by_cases hp : p.1 = k
    · have h1 := lookupA_cons_self (l := t ++ l2) hp
      have h2 := lookupA_cons_self (l := t) hp
      have hp' : (p.1 == k) = true := by simpa using hp
      simp [containsA_cons, hp', List.cons_append, h1, h2]
    · have hp' : (p.1 == k) = false := by simpa using hp
      rw [List.cons_append, lookupA_cons_ne hp, ih, containsA_cons, hp', Bool.false_or,
        lookupA_cons_ne hp]

lemma containsA_eraseA_self (l : List (String × V)) (k : String) :
    containsA (eraseA l k) k = false := by
  induction l with
  | nil => simp [eraseA_nil, containsA_nil]
  | cons p t ih =>
    by_cases hp : p.1 = k
    · rwa [eraseA_cons_self hp]
    · have hp' : (p.1 == k) = false := by simpa using hp
      rw [eraseA_cons_ne hp, containsA_cons, hp', Bool.false_or]
      exact ih

lemma containsA_eraseA_ne {l : List (String × V)} {k k0 : String} (h : k ≠ k0) :
    containsA (eraseA l k0) k = containsA l k := by
  induction l with
  | nil => simp [eraseA_nil]
  | cons p t ih =>
    by_cases hp : p.1 = k0
    · have hp' : (p.1 == k) = false := by
        simp only [beq_eq_false_iff_ne, ne_eq]
        intro hk
        exact h (hk ▸ hp)
      rw [eraseA_cons_self hp, containsA_cons, hp', Bool.false_or]
      exact ih
    · rw [eraseA_cons_ne hp, containsA_cons, containsA_cons, ih]

lemma lookupA_eraseA_ne {l : List (String × V)} {k k0 : String} (h : k ≠ k0) :
    lookupA (eraseA l k0) k = lookupA l k := by
  induction l with
  | nil => simp [eraseA_nil]
  | cons p t ih =>
    by_cases hp : p.1 = k0
    · have hp' : p.1 ≠ k := fun hk => h (hk ▸ hp)
      rw [eraseA_cons_self hp, lookupA_cons_ne hp']
      exact ih
    · by_cases hpk : p.1 = k
      · rw [eraseA_cons_ne hp, lookupA_cons_self hpk, lookupA_cons_self hpk]
      · rw [eraseA_cons_ne hp, lookupA_cons_ne hpk, lookupA_cons_ne hpk]
        exact ih

lemma eraseA_eq_self_of_not_contains {l : List (String × V)} {k : String}
    (h : containsA l k = false) : eraseA l k = l := by
  induction l with
  | nil => simp [eraseA_nil]
  | cons p t ih =>
    rw [containsA_cons, Bool.or_eq_false_iff] at h
    have hp : p.1 ≠ k := by simpa using h.1
    rw [eraseA_cons_ne hp, ih h.2]

lemma insertA_of_contains {l : List (String × V)} {k : String} (v : V)
    (h : containsA l k = true) :
    insertA l k v = l.map (fun p => if p.1 == k then (k, v) else p) := by
  simp [insertA, h]

lemma insertA_of_not_contains {l : List (String × V)} {k : String} (v : V)
    (h : containsA l k = false) : insertA l k v = l ++ [(k, v)] := by
  simp [insertA, h]

lemma lookupA_map_replace_self {l : List (String × V)} {k : String} (v : V)
    (h : containsA l k = true) :
    lookupA (l.map (fun p => if p.1 == k then (k, v) else p)) k = some v := by
  induction l with
  | nil => simp [containsA_nil] at h
  | cons p t ih =>
    by_cases hp : p.1 = k
    · have hp' : (p.1 == k) = true := by simpa using hp
      rw [List.map_cons, if_pos hp']
      exact lookupA_cons_self rfl
    · have hp' : (p.1 == k) = false := by simpa using hp
      rw [containsA_cons, hp', Bool.false_or] at h
      rw [List.map_cons, if_neg (by simp [hp']), lookupA_cons_ne hp]
      exact ih h

lemma lookupA_map_replace_ne {l : List (String × V)} {k k0 : String} (v : V)
    (h : k ≠ k0) :
    lookupA (l.map (fun p => if p.1 == k0 then (k0, v) else p)) k = lookupA l k := by
  induction l with
  | nil => simp
  | cons p t ih =>
    by_cases hp : p.1 = k0
    · have hp' : (p.1 == k0) = true := by simpa using hp
      have hk0 : (k0 : String) ≠ k := fun hk => h hk.symm
      have hpk : p.1 ≠ k := fun hk => h ((hk ▸ hp : k = k0))
      rw [List.map_cons, if_pos hp', lookupA_cons_ne hk0, lookupA_cons_ne hpk]
      exact ih
    · have hp' : (p.1 == k0) = false := by simpa using hp
      rw [List.map_cons, if_neg (by simp [hp'])]
      by_cases hpk : p.1 = k
      · rw [lookupA_cons_self hpk, lookupA_cons_self hpk]
      · rw [lookupA_cons_ne hpk, lookupA_cons_ne hpk]
        exact ih

lemma lookupA_insertA_self (l : List (String × V)) (k : String) (v : V) :
    lookupA (insertA l k v) k = some v := by
  by_cases h : containsA l k = true
  · rw [insertA_of_contains v h]
    exact lookupA_map_replace_self v h
  · have h' : containsA l k = false := by simpa using h
    rw [insertA_of_not_contains v h', lookupA_append, h', if_neg (by simp)]
    exact lookupA_cons_self rfl

lemma lookupA_insertA_ne {l : List (String × V)} {k k0 : String} (v : V)
    (h : k ≠ k0) : lookupA (insertA l k0 v) k = lookupA l k := by
  by_cases hc : containsA l k0 = true
  · rw [insertA_of_contains v hc]
    exact lookupA_map_replace_ne v h
  · have hc' : containsA l k0 = false := by simpa using hc
    rw [insertA_of_not_contains v hc', lookupA_append]
    by_cases h2 : containsA l k = true
    · rw [if_pos h2]
    · have h2' : containsA l k = false := by simpa using h2
      rw [h2', if_neg (by simp), lookupA_eq_none_of_not_contains h2',
        lookupA_cons_ne (fun hk => h hk.symm), lookupA_nil]

lemma keys_map_replace (l : List (String × V)) (k : String) (v : V) :
    (l.map (fun p => if p.1 == k then (k, v) else p)).map (fun p => p.1) =
      l.map (fun p => p.1) := by
  induction l with
  | nil => simp
  | cons p t ih =>
    by_cases hp : p.1 = k
    · have hp' : (p.1 == k) = true := by simpa using hp
      rw [List.map_cons, if_pos hp', List.map_cons, List.map_cons, ih, hp]
    · have hp' : (p.1 == k) = false := by simpa using hp
      rw [List.map_cons, if_neg (by simp [hp']), List.map_cons, List.map_cons, ih]

lemma containsA_insertA_self (l : List (String × V)) (k : String) (v : V) :
    containsA (insertA l k v) k = true :=
  containsA_of_lookupA (lookupA_insertA_self l k v)

lemma containsA_map_replace_ne {l : List (String × V)} {k k0 : String} (v : V)
    (h : k ≠ k0) :
    containsA (l.map (fun p => if p.1 == k0 then (k0, v) else p)) k
      = containsA l k := by
  induction l with
  | nil => simp
  | cons p t ih =>
    by_cases hp : p.1 = k0
    · have hp' : (p.1 == k0) = true := by simpa using hp
      have h1 : (k0 == k) = false := by
        simp only [beq_eq_false_iff_ne, ne_eq]
        exact fun hk => h hk.symm
      have h2 : (p.1 == k) = false := by
        simp only [beq_eq_false_iff_ne, ne_eq]
        exact fun hk => h ((hk ▸ hp : k = k0))
      rw [List.map_cons, if_pos hp', containsA_cons, containsA_cons, h1, h2, ih]
    · have hp' : (p.1 == k0) = false := by simpa using hp
      rw [List.map_cons, if_neg (by simp [hp']), containsA_cons, containsA_cons, ih]

lemma containsA_insertA_ne {l : List (String × V)} {k k0 : String} (v : V)
    (h : k ≠ k0) : containsA (insertA l k0 v) k = containsA l k := by
  by_cases hc : containsA l k0 = true
  · rw [insertA_of_contains v hc]
    exact containsA_map_replace_ne v h
  · have hc' : containsA l k0 = false := by simpa using hc
    rw [insertA_of_not_contains v hc', containsA_append]
    have : containsA [(k0, v)] k = false := by
      rw [containsA_eq_false_iff]
      intro p hp
      rw [List.mem_singleton] at hp
      rw [hp]
      exact fun hk => h hk.symm
    rw [this, Bool.or_false]

lemma eraseA_keys (l : List (String × V)) (k : String) :
    (eraseA l k).map (fun p => p.1) =
      (l.map (fun p => p.1)).filter (fun x => !(x == k)) := by
  induction l with
  | nil => simp [eraseA_nil]
  | cons p t ih =>
    by_cases hp : p.1 = k
    · have hp' : (p.1 == k) = true := by simpa using hp
      rw [eraseA_cons_self hp, List.map_cons, List.filter_cons, hp']
      simpa using ih
    · have hp' : (p.1 == k) = false := by simpa using hp
      rw [eraseA_cons_ne hp, List.map_cons, List.map_cons, List.filter_cons, hp']
      simpa using congrArg (List.cons p.1) ih

lemma eraseA_append (l1 l2 : List (String × V)) (k : String) :
    eraseA (l1 ++ l2) k = eraseA l1 k ++ eraseA l2 k := by
  simp [eraseA, List.filter_append]

lemma length_eraseA_of_nodup {l : List (String × V)} {k : String}
    (hnd : (l.map (fun p => p.1)).Nodup) (hc : containsA l k = true) :
    (eraseA l k).length + 1 = l.length := by
  induction l with
  | nil => simp [containsA_nil] at hc
  | cons p t ih =>
    rw [List.map_cons, List.nodup_cons] at hnd
    by_cases hp : p.1 = k
    · have : containsA t k = false := by
        rw [containsA_eq_false_iff]
        intro q hq hqk
        have hm : q.1 ∈ t.map (fun p => p.1) := List.mem_map_of_mem (fun p => p.1) hq
        rw [hqk, ← hp] at hm
        exact hnd.1 hm
      rw [eraseA_cons_self hp, eraseA_eq_self_of_not_contains this, List.length_cons]
    · have hp' : (p.1 == k) = false := by simpa using hp
      rw [containsA_cons, hp', Bool.false_or] at hc
      rw [eraseA_cons_ne hp, List.length_cons, List.length_cons, ih hnd.2 hc]

end AssocLemmas

/-! ## Lemmas: cache operation behavior -/

section CacheLemmas

variable {V : Type}

lemma mem_keys_iff (l : List (String × V)) (k : String) :
    k ∈ l.map (fun p => p.1) ↔ containsA l k = true := by
  rw [containsA_iff, List.mem_map]

lemma lookupA_moveToEnd_self {l : List (String × V)} {k : String} {v : V}
    (h : lookupA l k = some v) : lookupA (moveToEnd l k) k = some v := by
  rw [moveToEnd, h, lookupA_append, containsA_eraseA_self, if_neg (by simp)]
  exact lookupA_cons_self rfl

lemma containsA_moveToEnd {l : List (String × V)} {k : String} {v : V}
    (h : lookupA l k = some v) (k' : String) :
    containsA (moveToEnd l k) k' = containsA l k' := by
  by_cases hk : k' = k
  · subst hk
    rw [containsA_of_lookupA h, moveToEnd, h, containsA_append, containsA_eraseA_self,
      Bool.false_or, containsA_iff]
    exact ⟨(k', v), List.mem_singleton_self _, rfl⟩
  · rw [moveToEnd, h, containsA_append, containsA_eraseA_ne hk]
    have : containsA [(k, v)] k' = false := by
      rw [containsA_eq_false_iff]
      intro p hp
      rw [List.mem_singleton] at hp
      rw [hp]
      exact fun he => hk he.symm
    rw [this, Bool.or_false]

lemma moveToEnd_perm {l : List (String × V)} {k : String}
    (hnd : (l.map (fun p => p.1)).Nodup) (hc : containsA l k = true) :
    (moveToEnd l k).Perm l := by
  induction l with
  | nil => simp [containsA_nil] at hc
  | cons p t ih =>
    rw [List.map_cons, List.nodup_cons] at hnd
    by_cases hp : p.1 = k
    · have hct : containsA t k = false := by
        rw [containsA_eq_false_iff]
        intro q hq hqk
        have hm : q.1 ∈ t.map (fun p => p.1) := List.mem_map_of_mem (fun p => p.1) hq
        rw [hqk, ← hp] at hm
        exact hnd.1 hm
      have hpp : p = (k, p.2) := by
        cases p
        simp at hp ⊢
        exact hp
      simp only [moveToEnd, lookupA_cons_self hp, eraseA_cons_self hp,
        eraseA_eq_self_of_not_contains hct]
      rw [← hpp]
      exact List.perm_append_singleton p t
    · rw [containsA_cons] at hc
      have hp' : (p.1 == k) = false := by simpa using hp
      rw [hp', Bool.false_or] at hc
      obtain ⟨v, hv⟩ := lookupA_isSome_of_contains hc
      have hmt : moveToEnd (p :: t) k = p :: moveToEnd t k := by
        simp only [moveToEnd, lookupA_cons_ne hp, hv, eraseA_cons_ne hp,
          List.cons_append]
      rw [hmt]
      exact (ih hnd.2 hc).cons p

lemma get_of_not_contains {s : CacheManager V} {k : String} (now : ℤ)
    (h : containsA s.cache k = false) :
    CacheManager.get s k now = (none, { s with miss_count := s.miss_count + 1 }) := by
  rw [CacheManager.get, h]
  simp

lemma get_of_expired {s : CacheManager V} {k : String} {now : ℤ}
    (hc : containsA s.cache k = true) (he : CacheManager.isExpired s k now = true) :
    CacheManager.get s k now =
      (none, { s with cache := eraseA s.cache k, timestamps := eraseA s.timestamps k,
                      miss_count := s.miss_count + 1 }) := by
  rw [CacheManager.get, hc]
  simp [he, CacheManager.remove]

lemma get_of_hit {s : CacheManager V} {k : String} {now : ℤ}
    (hc : containsA s.cache k = true) (he : CacheManager.isExpired s k now = false) :
    CacheManager.get s k now =
      (lookupA s.cache k,
       { s with cache := moveToEnd s.cache k, hit_count := s.hit_count + 1 }) := by
  rw [CacheManager.get, hc]
  simp [he]

lemma get_snd_fields (s : CacheManager V) (k : String) (now : ℤ) :
    (CacheManager.get s k now).2.max_size = s.max_size ∧
      (CacheManager.get s k now).2.ttl = s.ttl := by
  by_cases hc : containsA s.cache k = true
  · by_cases he : CacheManager.isExpired s k now = true
    · rw [get_of_expired hc he]
      exact ⟨rfl, rfl⟩
    · rw [get_of_hit hc (by simpa using he)]
      exact ⟨rfl, rfl⟩
  · rw [get_of_not_contains now (by simpa using hc)]
    exact ⟨rfl, rfl⟩

lemma get_counts (s : CacheManager V) (k : String) (now : ℤ) :
    ((CacheManager.get s k now).2.hit_count = s.hit_count + 1 ∧
        (CacheManager.get s k now).2.miss_count = s.miss_count) ∨
      ((CacheManager.get s k now).2.hit_count = s.hit_count ∧
        (CacheManager.get s k now).2.miss_count = s.miss_count + 1) := by
  by_cases hc : containsA s.cache k = true
  · by_cases he : CacheManager.isExpired s k now = true
    · rw [get_of_expired hc he]
      exact Or.inr ⟨rfl, rfl⟩
    · rw [get_of_hit hc (by simpa using he)]
      exact Or.inl ⟨rfl, rfl⟩
  · rw [get_of_not_contains now (by simpa using hc)]
    exact Or.inr ⟨rfl, rfl⟩

lemma set_of_contains {s : CacheManager V} {k : String} (v : V) (t : ℤ)
    (h : containsA s.cache k = true) :
    CacheManager.set s k v t =
      { s with cache := moveToEnd (insertA s.cache k v) k,
               timestamps := insertA s.timestamps k t } := by
  simp only [CacheManager.set, if_pos h]

lemma set_of_fresh_small {s : CacheManager V} {k : String} (v : V) (t : ℤ)
    (h : containsA s.cache k = false) (hlen : s.cache.length + 1 ≤ s.max_size) :
    CacheManager.set s k v t =
      { s with cache := s.cache ++ [(k, v)],
               timestamps := insertA s.timestamps k t } := by
  have h1 : ¬ (containsA s.cache k = true) := by simp [h]
  have hng : ¬ ((s.cache ++ [(k, v)]).length > s.max_size) := by
    simp only [List.length_append, List.length_singleton]
    omega
  simp only [CacheManager.set, if_neg h1, if_neg hng]

lemma set_of_fresh_evict {s : CacheManager V} {k : String} {p : String × V}
    {t0 : List (String × V)} (v : V) (t : ℤ)
    (h : containsA s.cache k = false) (hcache : s.cache = p :: t0)
    (hlen : s.cache.length + 1 > s.max_size) :
    CacheManager.set s k v t =
      { s with
          cache := eraseA (s.cache ++ [(k, v)]) p.1,
          timestamps := eraseA (insertA s.timestamps k t) p.1 } := by
  have h1 : ¬ (containsA s.cache k = true) := by simp [h]
  have hgt : (s.cache ++ [(k, v)]).length > s.max_size := by
    simp only [List.length_append, List.length_singleton]
    omega
  simp only [CacheManager.set, if_neg h1, if_pos hgt]
  rw [CacheManager.evictLRU]
  have : (s.cache ++ [(k, v)]) = p :: (t0 ++ [(k, v)]) := by
    rw [hcache, List.cons_append]
  simp only [this, CacheManager.remove]

lemma set_of_fresh_evict_nil {s : CacheManager V} {k : String} (v : V) (t : ℤ)
    (h : containsA s.cache k = false) (hcache : s.cache = [])
    (hmax : s.max_size = 0) :
    CacheManager.set s k v t =
      { s with
          cache := [],
          timestamps := eraseA (insertA s.timestamps k t) k } := by
  have h1 : ¬ (containsA s.cache k = true) := by simp [h]
  have hgt : (s.cache ++ [(k, v)]).length > s.max_size := by
    rw [hcache, hmax]
    simp
  simp only [CacheManager.set, if_neg h1, if_pos hgt]
  rw [CacheManager.evictLRU]
  simp only [hcache, List.nil_append, CacheManager.remove]
  have : eraseA [(k, v)] k = [] := by
    rw [eraseA_cons_self rfl, eraseA_nil]
  rw [this]

lemma set_fields (s : CacheManager V) (k : String) (v : V) (t : ℤ) :
    (CacheManager.set s k v t).max_size = s.max_size ∧
      (CacheManager.set s k v t).ttl = s.ttl ∧
      (CacheManager.set s k v t).hit_count = s.hit_count ∧
      (CacheManager.set s k v t).miss_count = s.miss_count := by
  by_cases h : containsA s.cache k = true
  · rw [set_of_contains v t h]
    exact ⟨rfl, rfl, rfl, rfl⟩
  · have h' : containsA s.cache k = false := by simpa using h
    by_cases hlen : s.cache.length + 1 ≤ s.max_size
    · rw [set_of_fresh_small v t h' hlen]
      exact ⟨rfl, rfl, rfl, rfl⟩
    · cases hcache : s.cache with
      | nil =>
        have hmax : s.max_size = 0 := by
          rw [hcache] at hlen
          simp at hlen
          omega
        rw [set_of_fresh_evict_nil v t h' hcache hmax]
        exact ⟨rfl, rfl, rfl, rfl⟩
      | cons p t0 =>
        rw [set_of_fresh_evict v t h' hcache (by omega)]
        exact ⟨rfl, rfl, rfl, rfl⟩

end CacheLemmas

section CacheLemmas2

variable {V : Type}

lemma head_key_ne_of_fresh {s : CacheManager V} {k : String} {p : String × V}
    {t0 : List (String × V)} (h : containsA s.cache k = false)
    (hcache : s.cache = p :: t0) : p.1 ≠ k := by
  rw [containsA_eq_false_iff] at h
  exact h p (by rw [hcache]; exact List.mem_cons_self p t0)

lemma set_lookup_cache_self {s : CacheManager V} {k : String} (v : V) (t : ℤ)
    (hmax : 1 ≤ s.max_size) :
    lookupA (CacheManager.set s k v t).cache k = some v := by
  by_cases h : containsA s.cache k = true
  · rw [set_of_contains v t h]
    exact lookupA_moveToEnd_self (lookupA_insertA_self _ _ _)
  · have h' : containsA s.cache k = false := by simpa using h
    by_cases hlen : s.cache.length + 1 ≤ s.max_size
    · rw [set_of_fresh_small v t h' hlen]
      show lookupA (s.cache ++ [(k, v)]) k = some v
      rw [lookupA_append, h', if_neg (by simp)]
      exact lookupA_cons_self rfl
    · cases hcache : s.cache with
      | nil =>
        rw [hcache] at hlen
        simp at hlen
        omega
      | cons p t0 =>
        rw [set_of_fresh_evict v t h' hcache (by omega)]
        show lookupA (eraseA (s.cache ++ [(k, v)]) p.1) k = some v
        rw [lookupA_eraseA_ne (fun he => head_key_ne_of_fresh h' hcache he.symm),
          lookupA_append, h', if_neg (by simp)]
        exact lookupA_cons_self rfl

lemma set_lookup_ts_self {s : CacheManager V} {k : String} (v : V) (t : ℤ)
    (hmax : 1 ≤ s.max_size) :
    lookupA (CacheManager.set s k v t).timestamps k = some t := by
  by_cases h : containsA s.cache k = true
  · rw [set_of_contains v t h]
    exact lookupA_insertA_self _ _ _
  · have h' : containsA s.cache k = false := by simpa using h
    by_cases hlen : s.cache.length + 1 ≤ s.max_size
    · rw [set_of_fresh_small v t h' hlen]
      exact lookupA_insertA_self _ _ _
    · cases hcache : s.cache with
      | nil =>
        rw [hcache] at hlen
        simp at hlen
        omega
      | cons p t0 =>
        rw [set_of_fresh_evict v t h' hcache (by omega)]
        show lookupA (eraseA (insertA s.timestamps k t) p.1) k = some t
        rw [lookupA_eraseA_ne (fun he => head_key_ne_of_fresh h' hcache he.symm)]
        exact lookupA_insertA_self _ _ _

lemma set_contains_cache_self {s : CacheManager V} {k : String} (v : V) (t : ℤ)
    (hmax : 1 ≤ s.max_size) :
    containsA (CacheManager.set s k v t).cache k = true :=
  containsA_of_lookupA (set_lookup_cache_self v t hmax)

lemma isExpired_of_ts {s : CacheManager V} {k : String} {ts : ℤ} (now : ℤ)
    (h : lookupA s.timestamps k = some ts) :
    CacheManager.isExpired s k now = decide (now - ts > s.ttl) := by
  rw [CacheManager.isExpired, h]

/-- A `get` right after a `set` of the same key, within the TTL, is a
hit that returns the value just stored and bumps only `hit_count`. -/
lemma get_after_set {s : CacheManager V} {k : String} (v : V) (t now : ℤ)
    (hmax : 1 ≤ s.max_size) (hfresh : ¬ now - t > s.ttl) :
    (CacheManager.get (CacheManager.set s k v t) k now).1 = some v ∧
      (CacheManager.get (CacheManager.set s k v t) k now).2.hit_count
        = (CacheManager.set s k v t).hit_count + 1 ∧
      (CacheManager.get (CacheManager.set s k v t) k now).2.miss_count
        = (CacheManager.set s k v t).miss_count := by
  have hc : containsA (CacheManager.set s k v t).cache k = true :=
    set_contains_cache_self v t hmax
  have hts : lookupA (CacheManager.set s k v t).timestamps k = some t :=
    set_lookup_ts_self v t hmax
  have httl : (CacheManager.set s k v t).ttl = s.ttl := (set_fields s k v t).2.1
  have hexp : CacheManager.isExpired (CacheManager.set s k v t) k now = false := by
    rw [isExpired_of_ts now hts, httl]
    simpa using hfresh
  rw [get_of_hit hc hexp]
  exact ⟨set_lookup_cache_self v t hmax, rfl, rfl⟩

/-- Removing a list of keys with `_remove` leaves the counters and the
configuration untouched. -/
lemma foldl_remove_fields (ks : List String) (s : CacheManager V) :
    (ks.foldl (fun acc k => CacheManager.remove acc k) s).max_size = s.max_size ∧
      (ks.foldl (fun acc k => CacheManager.remove acc k) s).ttl = s.ttl ∧
      (ks.foldl (fun acc k => CacheManager.remove acc k) s).hit_count = s.hit_count ∧
      (ks.foldl (fun acc k => CacheManager.remove acc k) s).miss_count = s.miss_count := by
  induction ks generalizing s with
  | nil => exact ⟨rfl, rfl, rfl, rfl⟩
  | cons k0 rest ih =>
    rw [List.foldl_cons]
    exact ih (CacheManager.remove s k0)

lemma foldl_remove_contains (ks : List String) (s : CacheManager V) (k : String) :
    containsA (ks.foldl (fun acc k => CacheManager.remove acc k) s).cache k
      = (containsA s.cache k && !(ks.contains k)) := by
  induction ks generalizing s with
  | nil => simp
  | cons k0 rest ih =>
    rw [List.foldl_cons, ih]
    by_cases hk : k = k0
    · subst hk
      have : containsA (CacheManager.remove s k).cache k = false := by
        show containsA (eraseA s.cache k) k = false
        exact containsA_eraseA_self s.cache k
      rw [this]
      simp
    · have : containsA (CacheManager.remove s k0).cache k = containsA s.cache k := by
        show containsA (eraseA s.cache k0) k = containsA s.cache k
        exact containsA_eraseA_ne hk
      rw [this]
      have hk' : ((k0 :: rest).contains k) = rest.contains k := by
        have hne : (k == k0) = false := by simpa using hk
        simp only [List.contains_cons, hne, Bool.false_or]
      rw [hk']

lemma foldl_remove_preserve {ks : List String} (s : CacheManager V) {k : String}
    (hk : k ∉ ks) :
    lookupA (ks.foldl (fun acc k => CacheManager.remove acc k) s).cache k
        = lookupA s.cache k ∧
      lookupA (ks.foldl (fun acc k => CacheManager.remove acc k) s).timestamps k
        = lookupA s.timestamps k := by
  induction ks generalizing s with
  | nil => exact ⟨rfl, rfl⟩
  | cons k0 rest ih =>
    rw [List.mem_cons] at hk
    push_neg at hk
    rw [List.foldl_cons]
    have h1 := ih (CacheManager.remove s k0) hk.2
    have h2 : lookupA (CacheManager.remove s k0).cache k = lookupA s.cache k := by
      show lookupA (eraseA s.cache k0) k = lookupA s.cache k
      exact lookupA_eraseA_ne hk.1
    have h3 : lookupA (CacheManager.remove s k0).timestamps k
        = lookupA s.timestamps k := by
      show lookupA (eraseA s.timestamps k0) k = lookupA s.timestamps k
      exact lookupA_eraseA_ne hk.1
    exact ⟨h1.1.trans h2, h1.2.trans h3⟩

end CacheLemmas2

/-! ## Lemmas: invariant preservation (claim C10) -/

section InvLemmas

variable {V : Type}

lemma sameKeys_erase {c : List (String × V)} {ts : List (String × ℤ)} (k0 : String)
    (hsk : ∀ k, containsA c k = containsA ts k) :
    ∀ k, containsA (eraseA c k0) k = containsA (eraseA ts k0) k := by
  intro k
  by_cases hk : k = k0
  · subst hk
    rw [containsA_eraseA_self, containsA_eraseA_self]
  · rw [containsA_eraseA_ne hk, containsA_eraseA_ne hk]
    exact hsk k

lemma nodup_keys_eraseA {l : List (String × V)} (k0 : String)
    (h : (l.map (fun p => p.1)).Nodup) :
    ((eraseA l k0).map (fun p => p.1)).Nodup := by
  rw [eraseA_keys]
  exact h.filter _

lemma cacheInv_remove {s : CacheManager V} (k0 : String) (h : cacheInv s) :
    cacheInv (CacheManager.remove s k0) := by
  obtain ⟨hnd, hsk, hlen⟩ := h
  refine ⟨nodup_keys_eraseA k0 hnd, sameKeys_erase k0 hsk, ?_⟩
  exact le_trans (List.Sublist.length_le (eraseA_sublist s.cache k0)) hlen

lemma cacheInv_foldl_remove (ks : List String) {s : CacheManager V}
    (h : cacheInv s) :
    cacheInv (ks.foldl (fun acc k => CacheManager.remove acc k) s) := by
  induction ks generalizing s with
  | nil => exact h
  | cons k0 rest ih =>
    rw [List.foldl_cons]
    exact ih (cacheInv_remove k0 h)

lemma cacheInv_get {s : CacheManager V} (k : String) (now : ℤ) (h : cacheInv s) :
    cacheInv (CacheManager.get s k now).2 := by
  by_cases hc : containsA s.cache k = true
  · by_cases he : CacheManager.isExpired s k now = true
    · rw [get_of_expired hc he]
      obtain ⟨hnd, hsk, hlen⟩ := h
      refine ⟨nodup_keys_eraseA k hnd, sameKeys_erase k hsk, ?_⟩
      exact le_trans (List.Sublist.length_le (eraseA_sublist s.cache k)) hlen
    · rw [get_of_hit hc (by simpa using he)]
      obtain ⟨hnd, hsk, hlen⟩ := h
      obtain ⟨v, hv⟩ := lookupA_isSome_of_contains hc
      have hperm := moveToEnd_perm hnd hc
      refine ⟨?_, ?_, ?_⟩
      · exact (List.Perm.nodup_iff (hperm.map (fun p => p.1))).2 hnd
      · intro k'
        show containsA (moveToEnd s.cache k) k' = containsA s.timestamps k'
        rw [containsA_moveToEnd hv k']
        exact hsk k'
      · show (moveToEnd s.cache k).length ≤ s.max_size
        rw [hperm.length_eq]
        exact hlen
  · rw [get_of_not_contains now (by simpa using hc)]
    exact h

lemma cacheInv_set {s : CacheManager V} (k : String) (v : V) (t : ℤ)
    (h : cacheInv s) : cacheInv (CacheManager.set s k v t) := by
  obtain ⟨hnd, hsk, hlen⟩ := h
  by_cases hc : containsA s.cache k = true
  · rw [set_of_contains v t hc]
    have hkeys := keys_map_replace s.cache k v
    have hnd1 : ((insertA s.cache k v).map (fun p => p.1)).Nodup := by
      rw [insertA_of_contains v hc, hkeys]
      exact hnd
    have hc1 : containsA (insertA s.cache k v) k = true :=
      containsA_insertA_self s.cache k v
    obtain ⟨v1, hv1⟩ := lookupA_isSome_of_contains hc1
    have hperm := moveToEnd_perm hnd1 hc1
    refine ⟨?_, ?_, ?_⟩
    · exact (List.Perm.nodup_iff (hperm.map (fun p => p.1))).2 hnd1
    · intro k'
      show containsA (moveToEnd (insertA s.cache k v) k) k'
          = containsA (insertA s.timestamps k t) k'
      rw [containsA_moveToEnd hv1 k']
      by_cases hk : k' = k
      · subst hk
        rw [hc1, containsA_insertA_self]
      · rw [containsA_insertA_ne v (by exact hk), containsA_insertA_ne t (by exact hk)]
        exact hsk k'
    · show (moveToEnd (insertA s.cache k v) k).length ≤ s.max_size
      rw [hperm.length_eq, insertA_of_contains v hc, List.length_map]
      exact hlen
  · have hc' : containsA s.cache k = false := by simpa using hc
    have hnotmem : k ∉ s.cache.map (fun p => p.1) := by
      rw [mem_keys_iff]
      simp [hc']
    have hnd1 : ((s.cache ++ [(k, v)]).map (fun p => p.1)).Nodup := by
      rw [List.map_append]
      simp only [List.map_cons, List.map_nil]
      rw [List.nodup_append]
      refine ⟨hnd, List.nodup_singleton k, ?_⟩
      intro a ha hb
      rw [List.mem_singleton] at hb
      subst hb
      exact hnotmem ha
    have hts : containsA s.timestamps k = false := by
      rw [← hsk k]
      exact hc'
    have hts1 : insertA s.timestamps k t = s.timestamps ++ [(k, t)] :=
      insertA_of_not_contains t hts
    have hsk1 : ∀ k', containsA (s.cache ++ [(k, v)]) k'
        = containsA (insertA s.timestamps k t) k' := by
      intro k'
      rw [hts1, containsA_append, containsA_append]
      have : containsA [(k, v)] k' = containsA [(k, t)] k' := by
        by_cases hk : k' = k
        · subst hk
          rw [containsA_cons, containsA_cons]
          simp
        · have hne : (k == k') = false := by
            simp only [beq_eq_false_iff_ne, ne_eq]
            exact fun he => hk he.symm
          rw [containsA_cons, containsA_cons, hne]
          rfl
      rw [this, hsk k']
    by_cases hsmall : s.cache.length + 1 ≤ s.max_size
    · rw [set_of_fresh_small v t hc' hsmall]
      refine ⟨hnd1, hsk1, ?_⟩
      show (s.cache ++ [(k, v)]).length ≤ s.max_size
      simpa using hsmall
    · cases hcache : s.cache with
      | nil =>
        have hmax : s.max_size = 0 := by
          rw [hcache] at hsmall
          simp at hsmall
          omega
        rw [set_of_fresh_evict_nil v t hc' hcache hmax]
        refine ⟨by simp, ?_, by simp⟩
        intro k'
        show containsA ([] : List (String × V)) k'
            = containsA (eraseA (insertA s.timestamps k t) k) k'
        by_cases hk : k' = k
        · subst hk
          rw [containsA_nil, containsA_eraseA_self]
        · rw [containsA_nil, containsA_eraseA_ne hk, hts1, containsA_append]
          have h1 : containsA s.timestamps k' = false := by
            rw [← hsk k', hcache, containsA_nil]
          have h2 : containsA [(k, t)] k' = false := by
            rw [containsA_eq_false_iff]
            intro p hp
            rw [List.mem_singleton] at hp
            rw [hp]
            exact fun he => hk he.symm
          rw [h1, h2]
          rfl
      | cons p t0 =>
        rw [set_of_fresh_evict v t hc' hcache (by omega)]
        have hcontains1 : containsA (s.cache ++ [(k, v)]) p.1 = true := by
          have hmem : containsA s.cache p.1 = true :=
            (containsA_iff _ _).2 ⟨p, by rw [hcache]; exact List.mem_cons_self p t0, rfl⟩
          rw [containsA_append, hmem]
          rfl
        refine ⟨nodup_keys_eraseA p.1 hnd1, ?_, ?_⟩
        · intro k'
          show containsA (eraseA (s.cache ++ [(k, v)]) p.1) k'
              = containsA (eraseA (insertA s.timestamps k t) p.1) k'
          by_cases hk : k' = p.1
          · subst hk
            rw [containsA_eraseA_self, containsA_eraseA_self]
          · rw [containsA_eraseA_ne hk, containsA_eraseA_ne hk]
            exact hsk1 k'
        · show (eraseA (s.cache ++ [(k, v)]) p.1).length ≤ s.max_size
          have := length_eraseA_of_nodup hnd1 hcontains1
          have hlen1 : (s.cache ++ [(k, v)]).length = s.cache.length + 1 := by
            simp
          omega

lemma cacheInv_init (max_size : Nat) (ttl : ℤ) :
    cacheInv (CacheManager.init V max_size ttl) := by
  refine ⟨List.nodup_nil, ?_, Nat.zero_le _⟩
  intro k
  rfl

end InvLemmas

/-! ## Lemmas: cache-key structure (claims C7, C8) -/

section KeyLemmas

lemma digitChar_ne_underscore (n : Nat) : digitChar n ≠ '_' := by
  unfold digitChar
  split <;> decide

lemma hexDigitChar_ne_underscore (n : Nat) : hexDigitChar n ≠ '_' := by
  unfold hexDigitChar
  split <;> decide

lemma decCharsAux_append :
    ∀ (fuel n : Nat) (acc : List Char),
      decCharsAux fuel n acc = decCharsAux fuel n [] ++ acc := by
  intro fuel
  induction fuel with
  | zero =>
    intro n acc
    rfl
  | succ f ih =>
    intro n acc
    rw [decCharsAux, decCharsAux]
    by_cases h : n < 10
    · rw [if_pos h, if_pos h]
      rfl
    · rw [if_neg h, if_neg h, ih (n / 10) (digitChar (n % 10) :: acc),
        ih (n / 10) [digitChar (n % 10)], List.append_assoc]
      rfl

lemma decCharsAux_fuel :
    ∀ (n f1 f2 : Nat), n < f1 → n < f2 → ∀ acc,
      decCharsAux f1 n acc = decCharsAux f2 n acc := by
  intro n
  induction n using Nat.strong_induction_on with
  | _ n ih =>
    intro f1 f2 h1 h2 acc
    cases f1 with
    | zero => omega
    | succ g1 =>
      cases f2 with
      | zero => omega
      | succ g2 =>
        rw [decCharsAux, decCharsAux]
        by_cases h : n < 10
        · rw [if_pos h, if_pos h]
        · rw [if_neg h, if_neg h]
          have hd : n / 10 < n := Nat.div_lt_self (by omega) (by omega)
          exact ih (n / 10) hd g1 g2 (by omega) (by omega) _

lemma decChars_eq (n : Nat) :
    decChars n
      = if n < 10 then [digitChar n]
        else decChars (n / 10) ++ [digitChar (n % 10)] := by
  simp only [decChars, decCharsAux]
  by_cases h : n < 10
  · rw [if_pos h, if_pos h]
  · rw [if_neg h, if_neg h,
      decCharsAux_append n (n / 10) [digitChar (n % 10)]]
    have hd : n / 10 < n := Nat.div_lt_self (by omega) (by omega)
    rw [decCharsAux_fuel (n / 10) n (n / 10 + 1) (by omega) (by omega) [],
      decCharsAux]

lemma decChars_ne_underscore (n : Nat) : ∀ c ∈ decChars n, c ≠ '_' := by
  induction n using Nat.strong_induction_on with
  | _ n ih =>
    rw [decChars_eq]
    split
    · intro c hc
      rw [List.mem_singleton] at hc
      subst hc
      exact digitChar_ne_underscore n
    · next h =>
      intro c hc
      rw [List.mem_append] at hc
      rcases hc with hc | hc
      · exact ih (n / 10) (Nat.div_lt_self (by omega) (by omega)) c hc
      · rw [List.mem_singleton] at hc
        subst hc
        exact digitChar_ne_underscore (n % 10)

lemma digitChar_toNat {n : Nat} (h : n < 10) : (digitChar n).toNat - 48 = n := by
  interval_cases n <;> decide

lemma decVal_decChars (n : Nat) : decVal (decChars n) = n := by
  induction n using Nat.strong_induction_on with
  | _ n ih =>
    rw [decChars_eq]
    split
    · next h =>
      show (0 * 10 + ((digitChar n).toNat - 48)) = n
      rw [digitChar_toNat h]
      omega
    · next h =>
      have hd : decVal (decChars (n / 10) ++ [digitChar (n % 10)])
          = decVal (decChars (n / 10)) * 10 + ((digitChar (n % 10)).toNat - 48) := by
        rw [decVal, List.foldl_append]
        rfl
      rw [hd, ih (n / 10) (Nat.div_lt_self (by omega) (by omega)),
        digitChar_toNat (Nat.mod_lt _ (by omega))]
      omega

lemma decChars_injective {m n : Nat} (h : decChars m = decChars n) : m = n := by
  have hm := decVal_decChars m
  rw [h, decVal_decChars n] at hm
  exact hm.symm

lemma underscore_split :
    ∀ (a b r1 r2 : List Char), '_' ∉ a → '_' ∉ b →
      (a ++ '_' :: r1) <+: (b ++ '_' :: r2) → a = b ∧ r1 <+: r2 := by
  intro a
  induction a with
  | nil =>
    intro b r1 r2 _ hb hp
    cases b with
    | nil =>
      rw [List.nil_append, List.nil_append] at hp
      exact ⟨rfl, (List.cons_prefix_cons.1 hp).2⟩
    | cons d bt =>
      rw [List.nil_append, List.cons_append] at hp
      have hd := (List.cons_prefix_cons.1 hp).1
      exact absurd (hd ▸ List.mem_cons_self d bt) hb
  | cons c at2 ih =>
    intro b r1 r2 ha hb hp
    cases b with
    | nil =>
      rw [List.nil_append, List.cons_append] at hp
      have hc := (List.cons_prefix_cons.1 hp).1
      exact absurd (hc ▸ List.mem_cons_self c at2) ha
    | cons d bt =>
      rw [List.cons_append, List.cons_append] at hp
      obtain ⟨hcd, hrest⟩ := List.cons_prefix_cons.1 hp
      have ha' : '_' ∉ at2 := fun hm => ha (List.mem_cons_of_mem c hm)
      have hb' : '_' ∉ bt := fun hm => hb (List.mem_cons_of_mem d hm)
      obtain ⟨heq, hpre⟩ := ih bt r1 r2 ha' hb' hrest
      exact ⟨by rw [hcd, heq], hpre⟩

lemma ruleTypeStr_no_underscore (rt : RuleType) : '_' ∉ rt.str.toList := by
  cases rt <;> decide

lemma ruleTypeStr_toList_inj {a b : RuleType} (h : a.str.toList = b.str.toList) :
    a = b := by
  cases a <;> cases b <;> revert h <;> decide

lemma decRepr_no_underscore (n : Nat) : '_' ∉ (decRepr n).toList := by
  intro hm
  exact decChars_ne_underscore n '_' hm rfl

lemma md5hex8_no_underscore (s : String) : '_' ∉ (md5hex8 s).toList := by
  intro hm
  simp only [md5hex8, String.toList] at hm
  rw [List.mem_map] at hm
  obtain ⟨i, _, hi⟩ := hm
  exact hexDigitChar_ne_underscore _ hi

lemma key_toList (rt : RuleType) (rid : Nat) (ctx : Ctx) :
    (get_cache_key rt rid ctx).toList
      = rt.str.toList ++ '_' :: (decChars rid ++ '_'
          :: (md5hex8 (jsonDumpsSorted ctx)).toList) := by
  show (rt.str ++ "_" ++ decRepr rid ++ "_" ++ md5hex8 (jsonDumpsSorted ctx)).data = _
  rw [String.data_append, String.data_append, String.data_append, String.data_append]
  show rt.str.data ++ ['_'] ++ decChars rid ++ ['_'] ++ (md5hex8 (jsonDumpsSorted ctx)).data = _
  simp [List.append_assoc]

lemma rulePre_toList (rt : RuleType) (rid : Nat) :
    (rulePre rt rid).toList = rt.str.toList ++ '_' :: (decChars rid ++ '_' :: []) := by
  show (rt.str ++ "_" ++ decRepr rid ++ "_").data = _
  rw [String.data_append, String.data_append, String.data_append]
  show rt.str.data ++ ['_'] ++ decChars rid ++ ['_'] = _
  simp [List.append_assoc]

/-- A generated cache key starts with the invalidation pattern of
`(rt, rid)` exactly when it belongs to that rule. -/
lemma pyStartsWith_key_iff (rt rt' : RuleType) (rid rid' : Nat) (ctx : Ctx) :
    pyStartsWith (get_cache_key rt' rid' ctx) (rulePre rt rid) = true ↔
      (rt' = rt ∧ rid' = rid) := by
  rw [pyStartsWith, List.isPrefixOf_iff_prefix, key_toList, rulePre_toList]
  constructor
  · intro hp
    obtain ⟨h1, h2⟩ := underscore_split _ _ _ _
      (ruleTypeStr_no_underscore rt) (ruleTypeStr_no_underscore rt') hp
    obtain ⟨h3, _⟩ := underscore_split _ _ _ _
      (fun hm => decChars_ne_underscore rid '_' hm rfl)
      (fun hm => decChars_ne_underscore rid' '_' hm rfl) h2
    exact ⟨(ruleTypeStr_toList_inj h1).symm, (decChars_injective h3).symm⟩
  · rintro ⟨hrt, hrid⟩
    subst hrt
    subst hrid
    exact ⟨(md5hex8 (jsonDumpsSorted ctx)).toList, by simp⟩

end KeyLemmas

/-! ## Lemmas: sorting and fingerprint stability (claim C7) -/

section SortLemmas

lemma sortedKeyPermEq :
    ∀ (l1 l2 : Ctx), l1.Perm l2 → (l1.map Prod.fst).Nodup →
      l1.Pairwise keyLE → l2.Pairwise keyLE → l1 = l2 := by
  intro l1
  induction l1 with
  | nil =>
    intro l2 hp _ _ _
    exact (hp.symm.eq_nil).symm
  | cons a t1 ih =>
    intro l2 hp hnd hs1 hs2
    cases l2 with
    | nil => exact absurd hp.eq_nil (by simp)
    | cons b t2 =>
      have hab : a = b := by
        have hbmem : b ∈ a :: t1 := hp.symm.subset (List.mem_cons_self b t2)
        rcases List.mem_cons.1 hbmem with he | hbt1
        · exact he.symm
        · have hamem : a ∈ b :: t2 := hp.subset (List.mem_cons_self a t1)
          rcases List.mem_cons.1 hamem with he2 | hat2
          · exact he2
          · have h1 : keyLE a b := (List.pairwise_cons.1 hs1).1 b hbt1
            have h2 : keyLE b a := (List.pairwise_cons.1 hs2).1 a hat2
            have hk : b.1 = a.1 := le_antisymm h2 h1
            exfalso
            rw [List.map_cons, List.nodup_cons] at hnd
            exact hnd.1 (hk ▸ List.mem_map_of_mem Prod.fst hbt1)
      subst hab
      have hp' : t1.Perm t2 := hp.cons_inv
      rw [List.map_cons, List.nodup_cons] at hnd
      rw [ih t2 hp' hnd.2 (List.pairwise_cons.1 hs1).2 (List.pairwise_cons.1 hs2).2]

lemma sortByKey_perm_eq {l1 l2 : Ctx} (hp : l1.Perm l2)
    (hnd : (l1.map Prod.fst).Nodup) : sortByKey l1 = sortByKey l2 := by
  apply sortedKeyPermEq
  · exact (List.perm_insertionSort keyLE l1).trans
      (hp.trans (List.perm_insertionSort keyLE l2).symm)
  · exact (List.Perm.nodup_iff ((List.perm_insertionSort keyLE l1).map Prod.fst)).2 hnd
  · exact List.sorted_insertionSort keyLE l1
  · exact List.sorted_insertionSort keyLE l2

end SortLemmas

/-! ## Lemmas: resolver bookkeeping (claim C1) -/

section ResolverLemmas

lemma resolveSemanticRule_fields (st : Store) (s : CacheManager RVal) (now : ℤ)
    (sid : Nat) (ctx : Ctx) :
    (resolveSemanticRule st s now sid ctx).2.1.max_size = s.max_size ∧
      (resolveSemanticRule st s now sid ctx).2.1.ttl = s.ttl := by
  have hget := get_snd_fields s (semanticCacheKey sid ctx) now
  rw [resolveSemanticRule]
  cases hg : CacheManager.get s (semanticCacheKey sid ctx) now with
  | mk vo s1 =>
    rw [hg] at hget
    cases vo with
    | some v => exact hget
    | none =>
      cases hr : getSemanticRule st sid with
      | none => exact hget
      | some sr =>
        have hset := set_fields s1 (semanticCacheKey sid ctx)
          (RVal.sem ⟨some sr, getPrimitiveRulesForSemantic st sid, ctx, now⟩) now
        exact ⟨hset.1.trans hget.1, hset.2.1.trans hget.2⟩

lemma resolveSemList_fields (st : Store) (rows : List SemRow) (s : CacheManager RVal)
    (now : ℤ) (ctx : Ctx) :
    (resolveSemList st s now rows ctx).2.1.max_size = s.max_size ∧
      (resolveSemList st s now rows ctx).2.1.ttl = s.ttl := by
  induction rows generalizing s with
  | nil => exact ⟨rfl, rfl⟩
  | cons r rest ih =>
    rw [resolveSemList]
    have h1 := resolveSemanticRule_fields st s now r.id ctx
    cases hr : resolveSemanticRule st s now r.id ctx with
    | mk res rest1 =>
      cases rest1 with
      | mk s1 q1 =>
        rw [hr] at h1
        cases res with
        | error e => exact h1
        | ok rs =>
          dsimp only
          have h2 := ih s1
          cases hl : resolveSemList st s1 now rest ctx with
          | mk res2 rest2 =>
            cases rest2 with
            | mk s2 q2 =>
              rw [hl] at h2
              cases res2 with
              | error e =>
                dsimp only
                exact ⟨h2.1.trans h1.1, h2.2.trans h1.2⟩
              | ok l2 =>
                dsimp only
                exact ⟨h2.1.trans h1.1, h2.2.trans h1.2⟩

end ResolverLemmas

/-! ## Claim theorems -/

/-- C4: a Cache `get` returns the stored value exactly when the key is
present and unexpired (age strictly above the TTL expires); an entry
inserted at `T` is a hit at `T + TTL - ε` and a miss at `T + TTL + ε`
(for `ε > 0`); an expired entry is evicted by the `get` that observes it
and reported as not-found; and every `get` increments exactly one of
`hit_count` / `miss_count` by one. -/
theorem c4_cache_get_ttl {V : Type} :
    (∀ (s : CacheManager V) (k : String) (v : V) (T ε : ℤ),
      1 ≤ s.max_size → 0 < ε →
      (CacheManager.get (CacheManager.set s k v T) k (T + s.ttl - ε)).1 = some v) ∧
    (∀ (s : CacheManager V) (k : String) (v : V) (T ε : ℤ),
      1 ≤ s.max_size → 0 < ε →
      (CacheManager.get (CacheManager.set s k v T) k (T + s.ttl + ε)).1 = none ∧
        containsA
          (CacheManager.get (CacheManager.set s k v T) k (T + s.ttl + ε)).2.cache k
          = false) ∧
    (∀ (s : CacheManager V) (k : String) (now : ℤ),
      (CacheManager.get s k now).1 ≠ none ↔
        (containsA s.cache k = true ∧ CacheManager.isExpired s k now = false)) ∧
    (∀ (s : CacheManager V) (k : String) (now : ℤ),
      ((CacheManager.get s k now).2.hit_count = s.hit_count + 1 ∧
          (CacheManager.get s k now).2.miss_count = s.miss_count) ∨
        ((CacheManager.get s k now).2.hit_count = s.hit_count ∧
          (CacheManager.get s k now).2.miss_count = s.miss_count + 1)) := by
  refine ⟨?_, ?_, ?_, ?_⟩
  · intro s k v T ε hmax hε
    have hfresh : ¬ (T + s.ttl - ε) - T > s.ttl := by
      rw [not_lt]
      linarith
    exact (get_after_set v T (T + s.ttl - ε) hmax hfresh).1
  · intro s k v T ε hmax hε
    have hc : containsA (CacheManager.set s k v T).cache k = true :=
      set_contains_cache_self v T hmax
    have hts : lookupA (CacheManager.set s k v T).timestamps k = some T :=
      set_lookup_ts_self v T hmax
    have hexp : CacheManager.isExpired (CacheManager.set s k v T) k (T + s.ttl + ε)
        = true := by
      rw [isExpired_of_ts _ hts, (set_fields s k v T).2.1, decide_eq_true_eq]
      linarith
    rw [get_of_expired hc hexp]
    exact ⟨rfl, containsA_eraseA_self _ _⟩
  · intro s k now
    by_cases hc : containsA s.cache k = true
    · by_cases he : CacheManager.isExpired s k now = true
      · rw [get_of_expired hc he]
        simp [he]
      · have he' : CacheManager.isExpired s k now = false := by simpa using he
        rw [get_of_hit hc he']
        obtain ⟨v, hv⟩ := lookupA_isSome_of_contains hc
        simp [hv, hc, he']
    · have hc' : containsA s.cache k = false := by simpa using hc
      rw [get_of_not_contains now hc']
      simp [hc']
  · intro s k now
    exact get_counts s k now

/-- Witness for C4 at concrete inputs: an entry set at time 0 in a
TTL-10 cache is a hit at time 9 and a miss (with eviction) at time 11. -/
theorem c4_witness :
    (CacheManager.get (CacheManager.set (CacheManager.init Nat 5 10) "k" 7 0) "k"
        (0 + (CacheManager.init Nat 5 10).ttl - 1)).1 = some 7 ∧
      (CacheManager.get (CacheManager.set (CacheManager.init Nat 5 10) "k" 7 0) "k"
        (0 + (CacheManager.init Nat 5 10).ttl + 1)).1 = none :=
  ⟨c4_cache_get_ttl.1 (CacheManager.init Nat 5 10) "k" 7 0 1 (by decide) (by norm_num),
   (c4_cache_get_ttl.2.1 (CacheManager.init Nat 5 10) "k" 7 0 1 (by decide)
      (by norm_num)).1⟩

/-- C10: every public Cache operation preserves the invariant that the
entry dict and the timestamp dict hold exactly the same keys (together
with dict well-formedness), and — when the capacity is at least 1 and
the invariant held before — the entry count stays within the capacity. -/
theorem c10_cache_invariant {V : Type} (s : CacheManager V) (op : CacheOp V)
    (hmax : 1 ≤ s.max_size) (hinv : cacheInv s) : cacheInv (applyCacheOp s op) := by
  cases op with
  | get k now => exact cacheInv_get k now hinv
  | set k v now => exact cacheInv_set k v now hinv
  | delete k =>
    show cacheInv (CacheManager.delete s k).2
    rw [CacheManager.delete]
    by_cases hc : containsA s.cache k = true
    · rw [if_pos hc]
      exact cacheInv_remove k hinv
    · rw [if_neg hc]
      exact hinv
  | clear =>
    exact ⟨List.nodup_nil, fun k => rfl, Nat.zero_le _⟩
  | cleanupExpired now =>
    show cacheInv (CacheManager.cleanupExpired s now).2
    rw [CacheManager.cleanupExpired]
    exact cacheInv_foldl_remove _ hinv
  | invalidateRuleCache rt rid =>
    show cacheInv (CacheManager.invalidateRuleCache s rt rid).2
    rw [CacheManager.invalidateRuleCache]
    exact cacheInv_foldl_remove _ hinv
  | warmCache l now =>
    show cacheInv (CacheManager.warmCache s l now)
    rw [CacheManager.warmCache]
    induction l generalizing s with
    | nil => exact hinv
    | cons r rest ih =>
      rw [List.foldl_cons]
      refine ih _ ?_ (cacheInv_set _ _ _ hinv)
      rw [(set_fields _ _ _ _).1]
      exact hmax

/-- Witness for C10: a concrete `set` on a fresh capacity-2 cache. -/
theorem c10_witness :
    cacheInv (applyCacheOp (CacheManager.init Nat 2 10) (CacheOp.set "a" 5 0)) :=
  c10_cache_invariant (CacheManager.init Nat 2 10) (CacheOp.set "a" 5 0)
    (by decide) (cacheInv_init 2 10)

/-- C7: the cache key is a deterministic function of the rule kind, the
rule id, and the variable mapping viewed as a set of pairs — two
mappings equal up to entry order (with no duplicate keys) produce the
identical key string. -/
theorem c7_cache_key_order_independent (rt : RuleType) (rid : Nat)
    (ctx1 ctx2 : Ctx) (hperm : ctx1.Perm ctx2)
    (hnd : (ctx1.map Prod.fst).Nodup) :
    get_cache_key rt rid ctx1 = get_cache_key rt rid ctx2 := by
  rw [get_cache_key, get_cache_key, jsonDumpsSorted, jsonDumpsSorted,
    sortByKey_perm_eq hperm hnd]

/-- Witness for C7: two orderings of the same two-variable mapping give
the same key. -/
theorem c7_witness :
    get_cache_key RuleType.task 1 [("b", "2"), ("a", "1")]
      = get_cache_key RuleType.task 1 [("a", "1"), ("b", "2")] :=
  c7_cache_key_order_independent RuleType.task 1 _ _
    (List.Perm.swap ("a", "1") ("b", "2") []) (by decide)

/-- C8: `invalidate_rule_cache (kind, id)` removes every cache entry
keyed by that (kind, id) — for every variable fingerprint — and touches
nothing else: entries of other rules keep their values and timestamps,
and the hit/miss counters are unchanged. -/
theorem c8_invalidate_exact {V : Type} (s : CacheManager V) (rt : RuleType)
    (rid : Nat) :
    (∀ ctx, containsA (CacheManager.invalidateRuleCache s rt rid).2.cache
        (get_cache_key rt rid ctx) = false) ∧
      (∀ rt' rid' ctx, ¬ (rt' = rt ∧ rid' = rid) →
        lookupA (CacheManager.invalidateRuleCache s rt rid).2.cache
            (get_cache_key rt' rid' ctx)
          = lookupA s.cache (get_cache_key rt' rid' ctx) ∧
        lookupA (CacheManager.invalidateRuleCache s rt rid).2.timestamps
            (get_cache_key rt' rid' ctx)
          = lookupA s.timestamps (get_cache_key rt' rid' ctx)) ∧
      (CacheManager.invalidateRuleCache s rt rid).2.hit_count = s.hit_count ∧
      (CacheManager.invalidateRuleCache s rt rid).2.miss_count = s.miss_count := by
  have hshow : (CacheManager.invalidateRuleCache s rt rid).2
      = ((s.cache.map (fun p => p.1)).filter
          (fun k => pyStartsWith k (rulePre rt rid))).foldl
            (fun acc k => CacheManager.remove acc k) s := rfl
  refine ⟨?_, ?_, ?_, ?_⟩
  · intro ctx
    rw [hshow, foldl_remove_contains]
    by_cases hc : containsA s.cache (get_cache_key rt rid ctx) = true
    · have hmem : get_cache_key rt rid ctx ∈
          (s.cache.map (fun p => p.1)).filter
            (fun k => pyStartsWith k (rulePre rt rid)) := by
        rw [List.mem_filter]
        exact ⟨(mem_keys_iff _ _).2 hc,
          (pyStartsWith_key_iff rt rt rid rid ctx).2 ⟨rfl, rfl⟩⟩
      have : (((s.cache.map (fun p => p.1)).filter
          (fun k => pyStartsWith k (rulePre rt rid))).contains
            (get_cache_key rt rid ctx)) = true := by
        simpa using hmem
      rw [this]
      simp
    · have hc' : containsA s.cache (get_cache_key rt rid ctx) = false := by
        simpa using hc
      rw [hc']
      rfl
  · intro rt' rid' ctx hne
    rw [hshow]
    apply foldl_remove_preserve
    intro hmem
    rw [List.mem_filter] at hmem
    exact hne ((pyStartsWith_key_iff rt rt' rid rid' ctx).1 hmem.2)
  · rw [hshow]
    exact (foldl_remove_fields _ s).2.2.1
  · rw [hshow]
    exact (foldl_remove_fields _ s).2.2.2

/-- The LAG gap scan flags nothing exactly when every sorted version is
its predecessor plus one. -/
lemma lagIssues_eq_nil_iff (vs : List Nat) :
    lagIssues vs = [] ↔ List.Chain' (fun a b => b = a + 1) vs := by
  induction vs with
  | nil => simp [lagIssues]
  | cons a t ih =>
    cases t with
    | nil => simp [lagIssues]
    | cons b t2 =>
      rw [lagIssues, List.chain'_cons, ← ih]
      by_cases hb : b = a + 1
      · simp [hb]
      · simp [hb]

/-- The LAG gap scan reports exactly the adjacent sorted pairs that are
not successors, as (expected, found). -/
lemma lagIssues_zip (vs : List Nat) :
    lagIssues vs
      = ((vs.zip vs.tail).filter (fun p => decide (p.2 ≠ p.1 + 1))).map
          (fun p => (p.1 + 1, p.2)) := by
  induction vs with
  | nil => simp [lagIssues]
  | cons a t ih =>
    cases t with
    | nil => simp [lagIssues]
    | cons b t2 =>
      have hz : (a :: b :: t2).zip (a :: b :: t2).tail
          = (a, b) :: ((b :: t2).zip (b :: t2).tail) := rfl
      rw [lagIssues, ih, hz, List.filter_cons]
      by_cases hb : b = a + 1
      · have hd : decide (((a, b).2 : Nat) ≠ (a, b).1 + 1) = false := by
          simp [hb]
        rw [hd]
        simp [hb]
      · have hd : decide (((a, b).2 : Nat) ≠ (a, b).1 + 1) = true := by
          simp [hb]
        rw [hd]
        simp [hb]

/-- Counterexample to C9 as stated: the version history [2, 3] of
(task, 1) is not a contiguous ascending sequence starting at 1, yet the
check reports no issue for it (the first row of each partition has a
NULL LAG and is never compared against 1). -/
theorem c9_counterexample :
    versionIssues exC9rows RuleType.task 1 = [] ∧
      contiguousFromOne (partitionVersions exC9rows RuleType.task 1) = false := by
  decide

/-- C9 (amended): for every (kind, id) with version-history entries, the
check reports an issue iff the versions, sorted ascending, contain an
adjacent pair that is not a +1 step (whether the sequence starts at 1 is
not checked); each such gap is reported with expected = previous + 1 and
the found version. -/
theorem c9_version_sequencing_amended (rows : List VersionRow) (rt : RuleType)
    (rid : Nat) (_hne : partitionVersions rows rt rid ≠ []) :
    (versionIssues rows rt rid = [] ↔
        List.Chain' (fun a b => b = a + 1) (partitionVersions rows rt rid)) ∧
      versionIssues rows rt rid
        = (((partitionVersions rows rt rid).zip
              (partitionVersions rows rt rid).tail).filter
            (fun p => decide (p.2 ≠ p.1 + 1))).map (fun p => (p.1 + 1, p.2)) :=
  ⟨lagIssues_eq_nil_iff _, lagIssues_zip _⟩

/-- Witness for C9 (amended) on the version history [1, 3] of
(semantic, 4): the gap is reported as expected 2, found 3. -/
theorem c9_witness :
    (versionIssues exC9rows2 RuleType.semantic 4 = [] ↔
        List.Chain' (fun a b => b = a + 1)
          (partitionVersions exC9rows2 RuleType.semantic 4)) ∧
      versionIssues exC9rows2 RuleType.semantic 4
        = (((partitionVersions exC9rows2 RuleType.semantic 4).zip
              (partitionVersions exC9rows2 RuleType.semantic 4).tail).filter
            (fun p => decide (p.2 ≠ p.1 + 1))).map (fun p => (p.1 + 1, p.2)) :=
  c9_version_sequencing_amended exC9rows2 RuleType.semantic 4 (by decide)

/-- Counterexample to C3 as stated: with capacity 2 and TTL 10, after
`set "a" @ 0` and `set "b" @ 12`, the insert of "c" at time 13 evicts
"a" — which is expired — while the least-recently-used non-expired
entry "b" survives; the eviction therefore does not pick the
least-recently-used non-expired entry. -/
theorem c3_counterexample :
    (CacheManager.set exC3s2 "c" 3 13).cache.map (fun p => p.1) = ["b", "c"] ∧
      containsA exC3s2.cache "a" = true ∧
      CacheManager.isExpired exC3s2 "a" 13 = true ∧
      CacheManager.isExpired exC3s2 "b" 13 = false := by
  decide

/-- C3 (amended): when a `set` of a new key overflows a full cache, the
entry evicted is the least-recently-used entry regardless of expiry
(the front of the recency order): the new cache is the old one minus its
front entry plus the new key at the back.  A `get` hit moves its key to
the most-recent end, so (for capacity at least 2) a key accessed before
the overflowing insert survives the eviction. -/
theorem c3_lru_eviction_amended {V : Type} :
    (∀ (s : CacheManager V) (k : String) (v : V) (now : ℤ),
      (s.cache.map (fun p => p.1)).Nodup →
      containsA s.cache k = false →
      s.cache.length = s.max_size → 1 ≤ s.max_size →
      (CacheManager.set s k v now).cache = s.cache.tail ++ [(k, v)]) ∧
    (∀ (s : CacheManager V) (k k2 : String) (v2 : V) (now1 now2 : ℤ),
      (s.cache.map (fun p => p.1)).Nodup →
      containsA s.cache k = true →
      CacheManager.isExpired s k now1 = false →
      containsA s.cache k2 = false →
      2 ≤ s.cache.length →
      s.cache.length = s.max_size →
      containsA (CacheManager.set ((CacheManager.get s k now1).2) k2 v2 now2).cache k
        = true) := by
  constructor
  · intro s k v now hnd hfresh hfull hmax
    cases hcache : s.cache with
    | nil =>
      rw [hcache] at hfull
      rw [← hfull] at hmax
      simp at hmax
    | cons p t0 =>
      rw [set_of_fresh_evict v now hfresh hcache (by omega)]
      show eraseA (s.cache ++ [(k, v)]) p.1 = t0 ++ [(k, v)]
      rw [hcache]
      show eraseA ((p :: t0) ++ [(k, v)]) p.1 = t0 ++ [(k, v)]
      rw [List.cons_append, eraseA_cons_self rfl, eraseA_append]
      have h1 : eraseA t0 p.1 = t0 := by
        apply eraseA_eq_self_of_not_contains
        rw [containsA_eq_false_iff]
        intro q hq hqp
        rw [hcache, List.map_cons, List.nodup_cons] at hnd
        exact hnd.1 (hqp ▸ List.mem_map_of_mem (fun p => p.1) hq)
      have h2 : eraseA [(k, v)] p.1 = [(k, v)] := by
        apply eraseA_eq_self_of_not_contains
        rw [containsA_eq_false_iff]
        intro q hq hqp
        rw [List.mem_singleton] at hq
        subst hq
        exact head_key_ne_of_fresh hfresh hcache hqp.symm
      rw [h1, h2]
  · intro s k k2 v2 now1 now2 hnd hck hexp hck2 hlen2 hfull
    obtain ⟨v0, hv0⟩ := lookupA_isSome_of_contains hck
    have hgeq : (CacheManager.get s k now1).2
        = { s with cache := moveToEnd s.cache k,
                   hit_count := s.hit_count + 1 } := by
      rw [get_of_hit hck hexp]
    have hme : moveToEnd s.cache k = eraseA s.cache k ++ [(k, v0)] := by
      rw [moveToEnd, hv0]
    have hperm := moveToEnd_perm hnd hck
    have hlen1 : (moveToEnd s.cache k).length = s.cache.length := hperm.length_eq
    have hc2' : containsA (moveToEnd s.cache k) k2 = false := by
      rw [containsA_moveToEnd hv0 k2]
      exact hck2
    have herlen := length_eraseA_of_nodup hnd hck
    cases herase : eraseA s.cache k with
    | nil =>
      rw [herase] at herlen
      simp at herlen
      omega
    | cons q t1 =>
      have hqk : q.1 ≠ k := by
        have : containsA (eraseA s.cache k) k = false := containsA_eraseA_self _ _
        rw [containsA_eq_false_iff] at this
        exact this q (by rw [herase]; exact List.mem_cons_self q t1)
      have hshape : moveToEnd s.cache k = q :: (t1 ++ [(k, v0)]) := by
        rw [hme, herase, List.cons_append]
      have hc2s : containsA (CacheManager.get s k now1).2.cache k2 = false := by
        rw [hgeq]
        exact hc2'
      have hshapes : (CacheManager.get s k now1).2.cache = q :: (t1 ++ [(k, v0)]) := by
        rw [hgeq]
        exact hshape
      have hlens : (CacheManager.get s k now1).2.cache.length + 1
          > (CacheManager.get s k now1).2.max_size := by
        rw [hgeq]
        show (moveToEnd s.cache k).length + 1 > s.max_size
        omega
      have hset := set_of_fresh_evict v2 now2 hc2s hshapes hlens
      rw [hset]
      show containsA (eraseA ((CacheManager.get s k now1).2.cache ++ [(k2, v2)]) q.1)
        k = true
      rw [hgeq]
      show containsA (eraseA (moveToEnd s.cache k ++ [(k2, v2)]) q.1) k = true
      rw [containsA_eraseA_ne (fun he => hqk he.symm), containsA_append,
        containsA_moveToEnd hv0 k, hck]
      rfl

/-- Witness for C3 (amended): on a full two-entry cache, inserting "z"
evicts the front entry; after a `get "x"`, inserting "z" keeps "x". -/
theorem c3_witness :
    (CacheManager.set exC3w "z" 3 1).cache = exC3w.cache.tail ++ [("z", 3)] ∧
      containsA
        (CacheManager.set ((CacheManager.get exC3w "x" 1).2) "z" 3 1).cache "x"
        = true :=
  ⟨c3_lru_eviction_amended.1 exC3w "z" 3 1 (by decide) (by decide) (by decide)
     (by decide),
   c3_lru_eviction_amended.2 exC3w "x" "z" 3 1 1 (by decide) (by decide)
     (by decide) (by decide) (by decide) (by decide)⟩

/-- The inner primitive loop of `render_rule_hierarchy` equals a
skip-empty filter pipeline followed by first-wins deduplication. -/
lemma innerPrimFold_eq (R : Renderer) (ctx : Ctx) (prims : List PrimRow)
    (acc : List String) :
    prims.foldl
        (fun acc2 p =>
          if p.content == "" then acc2
          else
            let r := renderPrimitiveRule R p ctx
            if r == "" then acc2
            else if acc2.contains r then acc2 else acc2 ++ [r]) acc
      = (((prims.filter (fun p => !(p.content == ""))).map
            (fun p => renderPrimitiveRule R p ctx)).filter
          (fun s => !(s == ""))).foldl
            (fun acc x => if acc.contains x then acc else acc ++ [x]) acc := by
  induction prims generalizing acc with
  | nil => rfl
  | cons p t ih =>
    rw [List.foldl_cons, List.filter_cons]
    by_cases hc : p.content = ""
    · have hc' : (p.content == "") = true := by simpa using hc
      rw [if_pos hc']
      simp only [hc', Bool.not_true]
      rw [if_neg (by simp)]
      exact ih acc
    · have hc' : (p.content == "") = false := by simpa using hc
      rw [if_neg (by simp [hc'])]
      simp only [hc', Bool.not_false]
      rw [if_pos trivial, List.map_cons, List.filter_cons]
      by_cases hr : renderPrimitiveRule R p ctx = ""
      · have hr' : (renderPrimitiveRule R p ctx == "") = true := by simpa using hr
        simp only [hr', Bool.not_true]
        rw [if_pos trivial, if_neg (by simp)]
        exact ih acc
      · have hr' : (renderPrimitiveRule R p ctx == "") = false := by simpa using hr
        simp only [hr', Bool.not_false]
        rw [if_neg (by simp [hr']), if_pos trivial, List.foldl_cons]
        by_cases hmem : acc.contains (renderPrimitiveRule R p ctx) = true
        · rw [if_pos hmem]
          exact ih acc
        · rw [if_neg hmem]
          exact ih (acc ++ [renderPrimitiveRule R p ctx])

/-- The `all_primitive_rules_content` accumulator, compositionally: all
non-empty renders of non-empty-content primitives across semantics in
sibling order, deduplicated by exact text with the first occurrence
kept. -/
lemma allPrimitiveRulesContent_eq (R : Renderer) (sems : List ResolvedSemantic)
    (ctx : Ctx) :
    allPrimitiveRulesContent R sems ctx
      = dedupFirst
          ((((sems.map (fun sd => sd.primitive_rules)).flatten).filter
              (fun p => !(p.content == ""))).map
            (fun p => renderPrimitiveRule R p ctx)
          |>.filter (fun s => !(s == ""))) := by
  rw [allPrimitiveRulesContent, dedupFirst]
  have key : ∀ (sems : List ResolvedSemantic) (acc : List String),
      sems.foldl
          (fun acc sd =>
            sd.primitive_rules.foldl
              (fun acc2 p =>
                if p.content == "" then acc2
                else
                  let r := renderPrimitiveRule R p ctx
                  if r == "" then acc2
                  else if acc2.contains r then acc2 else acc2 ++ [r]) acc) acc
        = ((((sems.map (fun sd => sd.primitive_rules)).flatten).filter
              (fun p => !(p.content == ""))).map
            (fun p => renderPrimitiveRule R p ctx)
          |>.filter (fun s => !(s == ""))).foldl
            (fun acc x => if acc.contains x then acc else acc ++ [x]) acc := by
    intro sems
    induction sems with
    | nil => intro acc; rfl
    | cons sd rest ih =>
      intro acc
      rw [List.foldl_cons, innerPrimFold_eq, ih, List.map_cons, List.flatten_cons,
        List.filter_append, List.map_append, List.filter_append, List.foldl_append]
  exact key sems []

/-- Counterexample to C6 as stated: with a primitive whose template
renders to the empty string, the `primitive_rules` binding is not the
join of all flattened renders deduplicated — the empty render is
silently dropped rather than joined. -/
theorem c6_counterexample :
    lookupA (taskRenderContext exC6R exC6h []) "primitive_rules" = some "a" ∧
      String.intercalate "\n\n"
        (claimedPrimitiveRulesContent exC6R exC6h.semantic_rules
          (mergeCtx exC6h.context [])) = "\n\na" ∧
      ("a" : String) ≠ "\n\na" := by
  refine ⟨by decide, by decide, by decide⟩

/-- C6 (amended): when the task template is rendered, `primitive_rules`
is bound to the join of the non-empty flattened primitive renders from
all semantic children in sibling order (primitives with empty content
are skipped and renders that are empty strings are dropped),
deduplicated by exact rendered text with the first occurrence kept; this
binding is part of the context the task template is rendered against. -/
theorem c6_primitive_rules_binding_amended (R : Renderer) (h : ResolvedHierarchy)
    (ctx : Ctx) (tr : TaskRule) (htr : h.task_rule = some tr) :
    lookupA (taskRenderContext R h ctx) "primitive_rules"
        = some (String.intercalate "\n\n"
            (allPrimitiveRulesContent R h.semantic_rules (mergeCtx h.context ctx))) ∧
      allPrimitiveRulesContent R h.semantic_rules (mergeCtx h.context ctx)
        = dedupFirst
            ((((h.semantic_rules.map (fun sd => sd.primitive_rules)).flatten).filter
                (fun p => !(p.content == ""))).map
              (fun p => renderPrimitiveRule R p (mergeCtx h.context ctx))
            |>.filter (fun s => !(s == ""))) ∧
      renderRuleHierarchy R h ctx
        = renderTemplate R tr.prompt_template (taskRenderContext R h ctx) := by
  refine ⟨?_, allPrimitiveRulesContent_eq R h.semantic_rules (mergeCtx h.context ctx), ?_⟩
  · rw [taskRenderContext]
    exact lookupA_insertA_self _ _ _
  · rw [renderRuleHierarchy, htr]

/-- Witness for C6 (amended) on the concrete hierarchy [exC6h]. -/
theorem c6_witness :
    lookupA (taskRenderContext exC6R exC6h []) "primitive_rules"
        = some (String.intercalate "\n\n"
            (allPrimitiveRulesContent exC6R exC6h.semantic_rules
              (mergeCtx exC6h.context []))) ∧
      allPrimitiveRulesContent exC6R exC6h.semantic_rules (mergeCtx exC6h.context [])
        = dedupFirst
            ((((exC6h.semantic_rules.map (fun sd => sd.primitive_rules)).flatten).filter
                (fun p => !(p.content == ""))).map
              (fun p => renderPrimitiveRule exC6R p (mergeCtx exC6h.context []))
            |>.filter (fun s => !(s == ""))) ∧
      renderRuleHierarchy exC6R exC6h []
        = renderTemplate exC6R (TaskRule.mk 1 "T1" "TASK" "d").prompt_template
            (taskRenderContext exC6R exC6h []) :=
  c6_primitive_rules_binding_amended exC6R exC6h [] ⟨1, "T1", "TASK", "d"⟩ rfl

/-- C2: during composition, a primitive whose content fails to render
contributes its raw unrendered content; a semantic whose template fails
to render contributes a visible inline diagnostic marker carrying the
rule name and the error while every sibling is still rendered
independently; and the pipeline result is `ok` exactly when the
task-level render is — child failures never abort it. -/
theorem c2_degradation (R : Renderer) :
    (∀ (p : PrimRow) (ctx : Ctx) (e : String),
      p.content ≠ "" → R p.content ctx = .error e →
      renderPrimitiveRule R p ctx = p.content) ∧
    (∀ (h : ResolvedHierarchy) (ctx : Ctx) (i : Nat) (sd : ResolvedSemantic)
        (sr : SemanticRule) (e : String),
      h.semantic_rules[i]? = some sd →
      sd.semantic_rule = some sr →
      R sr.content_template (semanticContext R sd (mergeCtx h.context ctx))
        = .error e →
      (semanticContents R h ctx)[i]?
          = some ("<!-- Error rendering semantic rule " ++ sr.name ++ ": "
              ++ ("Invalid template syntax: " ++ e) ++ " -->") ∧
        ∀ (j : Nat) (sd2 : ResolvedSemantic), j ≠ i →
          h.semantic_rules[j]? = some sd2 →
          (semanticContents R h ctx)[j]?
            = some (renderSemanticRuleWithPrimitives R sd2 (mergeCtx h.context ctx))) ∧
    (∀ (h : ResolvedHierarchy) (ctx : Ctx) (tr : TaskRule),
      h.task_rule = some tr →
      ((∃ s, renderRuleHierarchy R h ctx = .ok s) ↔
        (∃ s, renderTemplate R tr.prompt_template (taskRenderContext R h ctx)
          = .ok s))) := by
  refine ⟨?_, ?_, ?_⟩
  · intro p ctx e hne hR
    have hc' : (p.content == "") = false := by simpa using hne
    rw [renderPrimitiveRule, if_neg (by simp [hc'])]
    simp only [renderTemplate, hR]
  · intro h ctx i sd sr e hi hsr hR
    constructor
    · rw [semanticContents, List.getElem?_map, hi, Option.map_some']
      simp only [renderSemanticRuleWithPrimitives, hsr, renderTemplate, hR]
    · intro j sd2 _ hj
      rw [semanticContents, List.getElem?_map, hj, Option.map_some']
  · intro h ctx tr htr
    rw [renderRuleHierarchy, htr]

/-- Witness for C2 on concrete data: a failing primitive falls back to
its raw content "BAD"; the failing semantic at index 0 yields the inline
diagnostic, its sibling at index 1 still renders; and the hierarchy
still renders to `ok`. -/
theorem c2_witness :
    renderPrimitiveRule exC2R exC2p [] = "BAD" ∧
      (semanticContents exC2R exC2h [])[0]?
          = some ("<!-- Error rendering semantic rule " ++ "sem_bad" ++ ": "
              ++ ("Invalid template syntax: " ++ "boom") ++ " -->") ∧
      (semanticContents exC2R exC2h [])[1]?
          = some (renderSemanticRuleWithPrimitives exC2R exC2sd2
              (mergeCtx exC2h.context [])) ∧
      (∃ s, renderRuleHierarchy exC2R exC2h [] = .ok s) := by
  refine ⟨?_, ?_, ?_, ?_⟩
  · exact (c2_degradation exC2R).1 exC2p [] "boom" (by decide) rfl
  · exact ((c2_degradation exC2R).2.1 exC2h [] 0 exC2sd ⟨7, "sem_bad", "BAD", "cat"⟩
      "boom" rfl rfl rfl).1
  · exact ((c2_degradation exC2R).2.1 exC2h [] 0 exC2sd ⟨7, "sem_bad", "BAD", "cat"⟩
      "boom" rfl rfl rfl).2 1 exC2sd2 (by decide) rfl
  · exact ((c2_degradation exC2R).2.2 exC2h [] ⟨1, "T", "TPL", "dom"⟩ rfl).2
      ⟨"TPL", rfl⟩

/-- C5: the fetched children at both levels are exactly the joined
relation rows of the parent, ordered ascending by `order_index` with
ties broken by rule name; when the (per-kind-unique) names in the join
are distinct, the order is strict — strictly ascending `order_index`
with name strictly ascending inside equal indices. -/
theorem c5_sibling_ordering :
    (∀ (st : Store) (task_id : Nat),
      (getSemanticRulesForTask st task_id).Perm (joinedSemRows st task_id) ∧
        (getSemanticRulesForTask st task_id).Pairwise semRowLE ∧
        (((joinedSemRows st task_id).map (fun r => r.name)).Nodup →
          (getSemanticRulesForTask st task_id).Pairwise
            (fun a b => a.order_index < b.order_index ∨
              (a.order_index = b.order_index ∧ a.name < b.name)))) ∧
    (∀ (st : Store) (semantic_id : Nat),
      (getPrimitiveRulesForSemantic st semantic_id).Perm
          (joinedPrimRows st semantic_id) ∧
        (getPrimitiveRulesForSemantic st semantic_id).Pairwise primRowLE ∧
        (((joinedPrimRows st semantic_id).map (fun r => r.name)).Nodup →
          (getPrimitiveRulesForSemantic st semantic_id).Pairwise
            (fun a b => a.order_index < b.order_index ∨
              (a.order_index = b.order_index ∧ a.name < b.name)))) := by
  constructor
  · intro st task_id
    refine ⟨List.perm_insertionSort semRowLE _,
      List.sorted_insertionSort semRowLE _, ?_⟩
    intro hnd
    have hnd' : ((getSemanticRulesForTask st task_id).map
        (fun r => r.name)).Nodup :=
      (List.Perm.nodup_iff
        ((List.perm_insertionSort semRowLE (joinedSemRows st task_id)).map
          (fun r => r.name))).2 hnd
    have hne : (getSemanticRulesForTask st task_id).Pairwise
        (fun a b => a.name ≠ b.name) := List.pairwise_map.1 hnd'
    have hle : (getSemanticRulesForTask st task_id).Pairwise semRowLE :=
      List.sorted_insertionSort semRowLE _
    refine (hle.and hne).imp ?_
    rintro a b ⟨hab, hnab⟩
    rcases hab with h1 | ⟨h1, h2⟩
    · exact Or.inl h1
    · exact Or.inr ⟨h1, lt_of_le_of_ne h2 hnab⟩
  · intro st semantic_id
    refine ⟨List.perm_insertionSort primRowLE _,
      List.sorted_insertionSort primRowLE _, ?_⟩
    intro hnd
    have hnd' : ((getPrimitiveRulesForSemantic st semantic_id).map
        (fun r => r.name)).Nodup :=
      (List.Perm.nodup_iff
        ((List.perm_insertionSort primRowLE (joinedPrimRows st semantic_id)).map
          (fun r => r.name))).2 hnd
    have hne : (getPrimitiveRulesForSemantic st semantic_id).Pairwise
        (fun a b => a.name ≠ b.name) := List.pairwise_map.1 hnd'
    have hle : (getPrimitiveRulesForSemantic st semantic_id).Pairwise primRowLE :=
      List.sorted_insertionSort primRowLE _
    refine (hle.and hne).imp ?_
    rintro a b ⟨hab, hnab⟩
    rcases hab with h1 | ⟨h1, h2⟩
    · exact Or.inl h1
    · exact Or.inr ⟨h1, lt_of_le_of_ne h2 hnab⟩

/-- Witness for C5 on a store with interleaved order indices (semantic
children with indices 2, 0, 2; primitive children with indices 1, 0). -/
theorem c5_witness :
    (getSemanticRulesForTask exC5Store 1).Pairwise
        (fun a b => a.order_index < b.order_index ∨
          (a.order_index = b.order_index ∧ a.name < b.name)) ∧
      (getPrimitiveRulesForSemantic exC5Store 10).Pairwise
        (fun a b => a.order_index < b.order_index ∨
          (a.order_index = b.order_index ∧ a.name < b.name)) :=
  ⟨(c5_sibling_ordering.1 exC5Store 1).2.2 (by decide),
   (c5_sibling_ordering.2 exC5Store 10).2.2 (by decide)⟩

/-- Counterexample to C1 as stated: on a concrete Store, calling
`generate` twice with identical inputs does return byte-identical
prompt text and the second call is a cache hit (hit_count goes from 0
to 1) — but the second call still issues one Store query
(`_get_task_rule_by_name` runs before the cache is consulted), not
zero. -/
theorem c1_counterexample :
    (generatePrompt exR exStore
        (generatePrompt exR exStore (CacheManager.init RVal 10 100) 0 "T1" []
          "claude").2.1 0 "T1" [] "claude").2.2 = 1 ∧
      ¬ (generatePrompt exR exStore
        (generatePrompt exR exStore (CacheManager.init RVal 10 100) 0 "T1" []
          "claude").2.1 0 "T1" [] "claude").2.2 = 0 ∧
      (generatePrompt exR exStore (CacheManager.init RVal 10 100) 0 "T1" []
          "claude").2.1.hit_count = 0 ∧
      (generatePrompt exR exStore
        (generatePrompt exR exStore (CacheManager.init RVal 10 100) 0 "T1" []
          "claude").2.1 0 "T1" [] "claude").2.1.hit_count = 1 := by
  refine ⟨by decide, by decide, by decide, by decide⟩

/-- C1 (amended): starting from a fresh engine cache, if a first
`generate(name, variables, target)` call succeeds, then a second call
with identical arguments within the TTL returns byte-identical prompt
text, its resolution is served from the Cache (`hit_count` increments by
one, `miss_count` is unchanged), and it issues exactly one Store query —
the task-rule-by-name lookup that `generate_prompt` performs before the
resolver consults the Cache — rather than zero. -/
theorem c1_generate_amended (R : Renderer) (st : Store) (maxs : Nat)
    (ttl t1 t2 : ℤ) (name : String) (ctx : Ctx) (target : String)
    (hmax : 1 ≤ maxs) (httl : t2 - t1 ≤ ttl)
    (r1 : GenResult) (cm1 : CacheManager RVal) (q1 : Nat)
    (h1 : generatePrompt R st (CacheManager.init RVal maxs ttl) t1 name ctx target
      = (.ok r1, cm1, q1)) :
    ∃ (r2 : GenResult) (cm2 : CacheManager RVal),
      generatePrompt R st cm1 t2 name ctx target = (.ok r2, cm2, 1) ∧
        r2.prompt = r1.prompt ∧
        cm2.hit_count = cm1.hit_count + 1 ∧
        cm2.miss_count = cm1.miss_count := by
  cases hname : getTaskRuleByName st name with
  | none =>
    rw [generatePrompt, hname] at h1
    simp at h1
  | some tr =>
    rw [generatePrompt, hname] at h1
    have hget0 : CacheManager.get (CacheManager.init RVal maxs ttl)
        (taskCacheKey tr.id ctx) t1
        = (none, { CacheManager.init RVal maxs ttl with
            miss_count := (CacheManager.init RVal maxs ttl).miss_count + 1 }) :=
      get_of_not_contains t1 rfl
    simp only [resolveTaskRule] at h1
    rw [hget0] at h1
    dsimp only at h1
    cases hti : getTaskRule st tr.id with
    | none =>
      rw [hti] at h1
      simp at h1
    | some tr2 =>
      rw [hti] at h1
      dsimp only at h1
      rcases hsl : resolveSemList st
          { CacheManager.init RVal maxs ttl with
            miss_count := (CacheManager.init RVal maxs ttl).miss_count + 1 } t1
          (getSemanticRulesForTask st tr.id) ctx with ⟨res, s2, q⟩
      rw [hsl] at h1
      cases res with
      | error e =>
        simp at h1
      | ok sems =>
        dsimp only at h1
        cases hrr : renderRuleHierarchy R ⟨some tr2, sems, ctx, t1⟩ ctx with
        | error e =>
          rw [hrr] at h1
          simp at h1
        | ok raw =>
          rw [hrr] at h1
          dsimp only at h1
          rw [Prod.mk.injEq, Prod.mk.injEq] at h1
          obtain ⟨hr1, hcm1, hq1⟩ := h1
          have hr1' : r1 = ⟨renderWithModelFormat raw target, raw, tr, target,
              ctx, ⟨some tr2, sems, ctx, t1⟩⟩ := (Except.ok.inj hr1).symm
          have hfields := resolveSemList_fields st (getSemanticRulesForTask st tr.id)
            { CacheManager.init RVal maxs ttl with
              miss_count := (CacheManager.init RVal maxs ttl).miss_count + 1 } t1 ctx
          rw [hsl] at hfields
          have hmax2 : 1 ≤ s2.max_size := by
            rw [hfields.1]
            exact hmax
          have httl2 : ¬ t2 - t1 > s2.ttl := by
            rw [hfields.2]
            show ¬ t2 - t1 > ttl
            omega
          have hc : containsA (CacheManager.set s2 (taskCacheKey tr.id ctx)
              (RVal.task ⟨some tr2, sems, ctx, t1⟩) t1).cache
              (taskCacheKey tr.id ctx) = true :=
            set_contains_cache_self _ t1 hmax2
          have hts : lookupA (CacheManager.set s2 (taskCacheKey tr.id ctx)
              (RVal.task ⟨some tr2, sems, ctx, t1⟩) t1).timestamps
              (taskCacheKey tr.id ctx) = some t1 :=
            set_lookup_ts_self _ t1 hmax2
          have hexp : CacheManager.isExpired
              (CacheManager.set s2 (taskCacheKey tr.id ctx)
                (RVal.task ⟨some tr2, sems, ctx, t1⟩) t1)
              (taskCacheKey tr.id ctx) t2 = false := by
            rw [isExpired_of_ts t2 hts, (set_fields s2 _ _ t1).2.1,
              decide_eq_false_iff_not]
            rw [hfields.2]
            show ¬ t2 - t1 > ttl
            omega
          have hget2 : CacheManager.get
              (CacheManager.set s2 (taskCacheKey tr.id ctx)
                (RVal.task ⟨some tr2, sems, ctx, t1⟩) t1)
              (taskCacheKey tr.id ctx) t2
              = (some (RVal.task ⟨some tr2, sems, ctx, t1⟩),
                 { CacheManager.set s2 (taskCacheKey tr.id ctx)
                     (RVal.task ⟨some tr2, sems, ctx, t1⟩) t1 with
                   cache := moveToEnd (CacheManager.set s2 (taskCacheKey tr.id ctx)
                     (RVal.task ⟨some tr2, sems, ctx, t1⟩) t1).cache
                     (taskCacheKey tr.id ctx),
                   hit_count := (CacheManager.set s2 (taskCacheKey tr.id ctx)
                     (RVal.task ⟨some tr2, sems, ctx, t1⟩) t1).hit_count + 1 }) := by
            rw [get_of_hit hc hexp, set_lookup_cache_self _ t1 hmax2]
          refine ⟨⟨renderWithModelFormat raw target, raw, tr, target, ctx,
              ⟨some tr2, sems, ctx, t1⟩⟩,
            (CacheManager.get (CacheManager.set s2 (taskCacheKey tr.id ctx)
              (RVal.task ⟨some tr2, sems, ctx, t1⟩) t1)
              (taskCacheKey tr.id ctx) t2).2, ?_, ?_, ?_, ?_⟩
          · rw [generatePrompt, hname, ← hcm1]
            simp only [resolveTaskRule]
            rw [hget2]
            dsimp only [RVal.asTask]
            rw [hrr]
          · rw [hr1']
          · rw [hget2, ← hcm1]
          · rw [hget2, ← hcm1]

/-- Witness for C1 (amended) at the concrete Store [exStore]. -/
theorem c1_witness :
    ∃ (r2 : GenResult) (cm2 : CacheManager RVal),
      generatePrompt exR exStore
          (generatePrompt exR exStore (CacheManager.init RVal 10 100) 0 "T1" []
            "claude").2.1 0 "T1" [] "claude" = (.ok r2, cm2, 1) ∧
        r2.prompt
          = (renderWithModelFormat "TASK" "claude") ∧
        cm2.hit_count
          = (generatePrompt exR exStore (CacheManager.init RVal 10 100) 0 "T1" []
              "claude").2.1.hit_count + 1 ∧
        cm2.miss_count
          = (generatePrompt exR exStore (CacheManager.init RVal 10 100) 0 "T1" []
              "claude").2.1.miss_count := by
  obtain ⟨r2, cm2, ha, hb, hc, hd⟩ := c1_generate_amended exR exStore 10 100 0 0
    "T1" [] "claude" (by norm_num) (by norm_num) _ _ _ rfl
  exact ⟨r2, cm2, ha, hb, hc, hd⟩

/-- Witness for C8: invalidating (task, 1) on a concrete two-entry cache
removes the task-1 entry and leaves the semantic-1 entry intact. -/
theorem c8_witness :
    containsA (CacheManager.invalidateRuleCache exC8 RuleType.task 1).2.cache
        (get_cache_key RuleType.task 1 []) = false ∧
      lookupA (CacheManager.invalidateRuleCache exC8 RuleType.task 1).2.cache
          (get_cache_key RuleType.semantic 1 [])
        = lookupA exC8.cache (get_cache_key RuleType.semantic 1 []) :=
  ⟨(c8_invalidate_exact exC8 RuleType.task 1).1 [],
   ((c8_invalidate_exact exC8 RuleType.task 1).2.1 RuleType.semantic 1 []
      (by simp)).1⟩

end TieredPrompts
